import Mathlib

/-!
# Verification of the bustcall decision-and-delegation core

A shallow embedding of the dimensional cache coordinator
(`src/dimensional_cache.rs`), the PID watcher (`src/pid_watcher.rs`), the
fault-torrent daemon's queues and monitors (`src/bin/daemon.rs`,
`src/bin/bustcall-daemon.rs`) and the self-healing recovery escalator
(`src/self_healing.rs`), together with proofs of the specified properties.

Modelling conventions:
* `f32`/`f64` arithmetic is embedded as exact rational (`ℚ`) arithmetic; all
  constants appearing in the code (`0.5`, `0.3`, `0.2`, `0.9`, `0.1`, `2.0`,
  `1.0`, `5.0`, `10.0`, `50.0`) and all comparisons on the values the program
  builds from them are modelled exactly.
* `DashMap`/`HashMap` collections are embedded as association lists whose list
  order stands for the (unspecified) iteration order; map keys are unique in
  the Rust maps, and `get_mut`/`remove` are embedded as first-occurrence
  update/removal, which agrees with the Rust semantics on every unique-key
  state.
* `u64`/`u32`/`u8` counters are embedded as `ℕ`; no arithmetic done on them by
  the modelled code can overflow their Rust widths in the scenarios the claims
  quantify over, and subtraction is only used where the code guarantees
  non-negativity (noted where it occurs).
* Fallible operations thread an explicit success flag; the optional Redis
  notification channel is a state field `redisClient : Option Bool`
  (`none` = no client, `some b` = client whose connection attempt succeeds
  iff `b`).
-/

set_option maxHeartbeats 1000000

namespace Bustcall

/-! ## Basic data model (`src/dimensional_cache.rs`) -/

/-- `CacheState` from `dimensional_cache.rs`: Hot / Warm / Cold / Stale. -/
inductive CacheState where
  | Hot
  | Warm
  | Cold
  | Stale
deriving DecidableEq, Repr

/-- `CacheBustSeverity` from `dimensional_cache.rs`. -/
inductive CacheBustSeverity where
  | Low
  | Medium
  | High
  | Critical
deriving DecidableEq, Repr

/-- The severity-to-priority-score mapping of
`DimensionalCacheManager::queue_rebuild`: Low=1.0, Medium=5.0, High=10.0,
Critical=50.0. -/
def priorityScore : CacheBustSeverity → ℚ
  | .Low => 1
  | .Medium => 5
  | .High => 10
  | .Critical => 50

/-- `ModelWeights` from `dimensional_cache.rs`. -/
structure ModelWeights where
  languagePriority : ℚ
  dependencyImpact : ℚ
  buildCost : ℚ
  criticalPath : Bool
deriving DecidableEq, Repr

/-- `EvictionStrategy` from `dimensional_cache.rs`. -/
inductive EvictionStrategy where
  | LRU
  | MRU
  | LFU
  | FIFO
  | ModelAware (weights : ModelWeights)
deriving DecidableEq, Repr

/-- `CacheEvicon` (a cache entry, the eviction unit) from
`dimensional_cache.rs`. -/
structure CacheEvicon where
  cacheId : String
  modelBinding : String
  evictionStrategy : EvictionStrategy
  lastAccess : ℕ
  accessFrequency : ℕ
  integrityScore : ℕ
  dependencyDepth : ℕ
deriving DecidableEq, Repr

/-- `DiramDimension` (the per-target cache vector) from
`dimensional_cache.rs`. -/
structure DiramDimension where
  vectorId : String
  hotPathScore : ℚ
  memoryFootprint : ℕ
  accessPattern : List ℕ
  cacheState : CacheState
deriving DecidableEq, Repr

/-- `ModelBinding` from `dimensional_cache.rs`. -/
structure ModelBinding where
  runtime : String
  pid : Option ℕ
  path : String
  lastModified : ℕ
  cacheDependencies : List String
deriving DecidableEq, Repr

/-- `PriorityEntry` from `dimensional_cache.rs`; its `Ord` instance compares
`priority_score` only (the `timestamp` field takes no part in the ordering). -/
structure PriorityEntry where
  cacheId : String
  priorityScore : ℚ
  timestamp : ℕ
deriving DecidableEq, Repr

/-- The boolean "less or equal" induced by `PriorityEntry`'s
`Ord`/`PartialOrd` implementation: it compares `priority_score` with
`partial_cmp` (total on the non-NaN scores the program produces) and ignores
every other field. -/
def peLe (a b : PriorityEntry) : Bool :=
  decide (a.priorityScore ≤ b.priorityScore)

/-! ## The rebuild priority queue

`DimensionalCacheManager` stores `PriorityEntry` values in a
`std::collections::BinaryHeap`, a max-heap over the `Ord` above.  The heap is
embedded by its actual algorithm (array layout, `sift_up` on push, and
`sift_down_to_bottom` — hole driven to the bottom along greater children, then
sifted up — on pop), since the order in which equal-score entries surface
depends on exactly that algorithm. -/

/-- `BinaryHeap::sift_up`, hole-style: `x` is the element being placed, the
hole is at `pos`; while the hole is below `start` and `x` is greater than the
parent, the parent moves down into the hole; finally `x` is written at the
hole.  (`data.set` on the hole position overwrites the stale copy the hole
leaves behind, which the algorithm never reads.)  The loop is made structural
with a fuel argument; the hole index strictly decreases at each step, so with
fuel `pos` (as `siftUp` supplies) the fuel never runs out before the loop
exits, and at exhaustion (`pos = 0`) the base case coincides with the loop
exit action. -/
def siftUpGo : ℕ → PriorityEntry → List PriorityEntry → ℕ → ℕ →
    List PriorityEntry
  | 0, x, data, _, pos => data.set pos x
  | fuel + 1, x, data, start, pos =>
    if start < pos then
      -- every read the algorithm performs is in bounds (the hole stays below
      -- `data.length`), so the default of the total lookup is never consulted
      let xp := data.getD ((pos - 1) / 2) x
      if peLe x xp then data.set pos x
      else siftUpGo fuel x (data.set pos xp) start ((pos - 1) / 2)
    else data.set pos x

/-- `BinaryHeap::sift_up(start, pos)` with the canonical fuel. -/
def siftUp (x : PriorityEntry) (data : List PriorityEntry) (start pos : ℕ) :
    List PriorityEntry :=
  siftUpGo pos x data start pos

/-- `BinaryHeap::push`: append the element then sift it up from the old
length. -/
def heapPush (data : List PriorityEntry) (x : PriorityEntry) :
    List PriorityEntry :=
  siftUp x (data ++ [x]) 0 data.length

/-- `BinaryHeap::sift_down_to_bottom`, loop body: the hole (holding `x`
aside) moves to the bottom, always through the greater child (ties resolved
to the *right* child, per
`child += (hole.get(child) <= hole.get(child + 1)) as usize`), and the
element is then sifted up from the bottom position.  Fuel-structural: the
hole index strictly increases and stays below `data.length`, so fuel
`data.length` (as `siftDownToBottom` supplies) never runs out before a loop
exit, and at exhaustion the base case coincides with the loop exit action. -/
def siftDownGo : ℕ → PriorityEntry → List PriorityEntry → ℕ → ℕ →
    List PriorityEntry
  | 0, x, data, start, pos => siftUp x data start pos
  | fuel + 1, x, data, start, pos =>
    if 2 * pos + 2 < data.length then
      -- every read the algorithm performs is in bounds, so the default of
      -- the total lookup is never consulted
      let child :=
        if peLe (data.getD (2 * pos + 1) x) (data.getD (2 * pos + 2) x) then
          2 * pos + 2
        else 2 * pos + 1
      siftDownGo fuel x (data.set pos (data.getD child x)) start child
    else if 2 * pos + 2 = data.length then
      -- `child == end - 1`: move the single last child up, then sift up.
      siftUp x (data.set pos (data.getD (2 * pos + 1) x)) start (2 * pos + 1)
    else siftUp x data start pos

/-- `BinaryHeap::sift_down_to_bottom(pos)` with the canonical fuel. -/
def siftDownToBottom (x : PriorityEntry) (data : List PriorityEntry)
    (start pos : ℕ) : List PriorityEntry :=
  siftDownGo data.length x data start pos

/-- `BinaryHeap::pop`: remove the last element, swap it into the root slot,
return the old root, and restore the heap with `sift_down_to_bottom` from the
root. -/
def heapPop (data : List PriorityEntry) :
    Option PriorityEntry × List PriorityEntry :=
  match data with
  | [] => (none, [])
  | [x] => (some x, [])
  | x :: xs =>
    let last := (x :: xs).getLast (by simp)
    let body := ((x :: xs).dropLast).set 0 last
    (some x, siftDownToBottom last body 0 0)

/-- Pop repeatedly (with explicit fuel), collecting the returned elements in
order. -/
def popSeqGo : ℕ → List PriorityEntry → List PriorityEntry
  | 0, _ => []
  | n + 1, data =>
    match heapPop data with
    | (none, _) => []
    | (some x, rest) => x :: popSeqGo n rest

/-- Pop every element of the heap, in pop order. -/
def popSeq (data : List PriorityEntry) : List PriorityEntry :=
  popSeqGo data.length data

/-- An arbitrary default entry; `scoreAt` is only ever applied in range. -/
def defaultPE : PriorityEntry :=
  ⟨"", 0, 0⟩

/-- The priority score stored at array index `i` (total, via `getD`). -/
def scoreAt (l : List PriorityEntry) (i : ℕ) : ℚ :=
  (l.getD i defaultPE).priorityScore

/-- The max-heap shape invariant of the `BinaryHeap` array: every non-root
element is `≤` its parent (by priority score). -/
def heapProp (l : List PriorityEntry) : Prop :=
  ∀ i, 0 < i → i < l.length → scoreAt l i ≤ scoreAt l ((i - 1) / 2)

/-- Sift invariant, part 1: every parent/child pair not involving the hole at
`pos` is heap-ordered. -/
def holeInv (data : List PriorityEntry) (pos : ℕ) : Prop :=
  ∀ i, 0 < i → i < data.length → i ≠ pos → (i - 1) / 2 ≠ pos →
    scoreAt data i ≤ scoreAt data ((i - 1) / 2)

/-- Sift invariant, part 2: the children of the hole are `≤` the element
being placed. -/
def childrenLeX (data : List PriorityEntry) (pos : ℕ) (x : PriorityEntry) :
    Prop :=
  ∀ i, 0 < i → i < data.length → (i - 1) / 2 = pos →
    scoreAt data i ≤ x.priorityScore

/-- Sift invariant, part 3: when the hole is not the root, its children are
`≤` its parent. -/
def childrenLeGrand (data : List PriorityEntry) (pos : ℕ) : Prop :=
  0 < pos → ∀ i, 0 < i → i < data.length → (i - 1) / 2 = pos →
    scoreAt data i ≤ scoreAt data ((pos - 1) / 2)

/-! ## Association-list embedding of the `DashMap` fields

`DashMap::get_mut` mutates the (unique) entry with the given key and
`DashMap::remove` removes it; on unique-key states these coincide with
first-occurrence update / key filtering below. -/

/-- Look up the first entry with key `k` (embeds `DashMap::get`). -/
def assocFind {κ β : Type} [DecidableEq κ] (k : κ) : List (κ × β) → Option β
  | [] => none
  | (a, b) :: t => if a = k then some b else assocFind k t

/-- Update the first entry with key `k` in place (embeds
`DashMap::get_mut`). -/
def assocModify {κ β : Type} [DecidableEq κ] (k : κ) (f : β → β) :
    List (κ × β) → List (κ × β)
  | [] => []
  | (a, b) :: t =>
    if a = k then (a, f b) :: t else (a, b) :: assocModify k f t

/-! ## `DimensionalCacheManager` (`src/dimensional_cache.rs`) -/

/-- The mutable state of `DimensionalCacheManager`.  `heapEntries` is the
backing array of the `BinaryHeap` inside `HeapPrioritizer`.  `redisClient`
embeds the optional Redis client: `none` = no client, `some b` = a client
whose `get_connection()` succeeds iff `b`.  `bustLog` is an observation-only
ghost field recording, in order, every invocation of `bust_cache`; no
modelled operation reads it. -/
structure CacheManagerState where
  cacheEvicons : List (String × CacheEvicon)
  diramDimensions : List (String × DiramDimension)
  heapEntries : List PriorityEntry
  modelBindings : List (String × ModelBinding)
  redisClient : Option Bool
  bustLog : List (String × CacheBustSeverity)
deriving DecidableEq, Repr

/-- `DimensionalCacheManager::queue_rebuild`: push a `PriorityEntry` for the
target with the severity-derived score onto the rebuild heap (`now` stands
for the `SystemTime::now` timestamp). -/
def queueRebuild (st : CacheManagerState) (target : String)
    (severity : CacheBustSeverity) (now : ℕ) : CacheManagerState :=
  { st with
    heapEntries :=
      heapPush st.heapEntries ⟨target, priorityScore severity, now⟩ }

/-- `DimensionalCacheManager::bust_cache`: mark the target's dimensional
vector `Stale` and halve its `hot_path_score` (if the vector exists), remove
every cache entry whose `model_binding` equals the target, queue a rebuild,
and finally publish a Redis notification if a client is configured —
`get_connection()?` propagates a failure there as an error (the state
mutations have already happened).  The returned `Bool` is the success flag of
the `Result`.  The entry removal loop collects the keys of all entries with
`model_binding == target` and removes each collected key; on the unique-key
states `DashMap` maintains this equals the entry filter used here. -/
def bustCache (st : CacheManagerState) (target : String)
    (severity : CacheBustSeverity) (now : ℕ) : CacheManagerState × Bool :=
  let st1 : CacheManagerState :=
    { st with
      bustLog := st.bustLog ++ [(target, severity)]
      diramDimensions :=
        assocModify target
          (fun d =>
            { d with
              cacheState := CacheState.Stale
              hotPathScore := d.hotPathScore * (1 / 2) })
          st.diramDimensions }
  let st2 : CacheManagerState :=
    { st1 with
      cacheEvicons :=
        st1.cacheEvicons.filter fun e => !(e.2.modelBinding == target) }
  let st3 := queueRebuild st2 target severity now
  match st3.redisClient with
  | none => (st3, true)
  | some connOk => (st3, connOk)

/-- `DimensionalCacheManager::calculate_eviction_score`:
`(0.3·access_frequency + 0.2·integrity_score +
dependency_impact·dependency_depth + language_priority) ·
(2.0 if critical_path else 1.0)`. -/
def calculateEvictionScore (evicon : CacheEvicon) (weights : ModelWeights) :
    ℚ :=
  let accessComponent := (evicon.accessFrequency : ℚ) * (3 / 10)
  let integrityComponent := (evicon.integrityScore : ℚ) * (2 / 10)
  let dependencyComponent :=
    (evicon.dependencyDepth : ℚ) * weights.dependencyImpact
  let languageComponent := weights.languagePriority
  let criticalPathModifier : ℚ := if weights.criticalPath then 2 else 1
  (accessComponent + integrityComponent + dependencyComponent +
      languageComponent) *
    criticalPathModifier

/-- The candidate filter of the `ModelAware` arm of `cache_evict`: entries
whose dimensional vector exists and is `Cold` or `Stale` (`map_or(false, …)`:
entries without a vector are not candidates). -/
def modelAwareCandidates (st : CacheManagerState) :
    List (String × CacheEvicon) :=
  st.cacheEvicons.filter fun e =>
    match assocFind e.1 st.diramDimensions with
    | some d =>
      d.cacheState == CacheState.Cold || d.cacheState == CacheState.Stale
    | none => false

/-- The comparator of the `ModelAware` sort: ascending eviction score
(`partial_cmp(..).unwrap_or(Equal)`, total on the values produced). -/
def eviconLe (weights : ModelWeights) (a b : String × CacheEvicon) : Bool :=
  decide
    (calculateEvictionScore a.2 weights ≤ calculateEvictionScore b.2 weights)

/-- The `ModelAware` arm of `cache_evict`: the three lowest-scoring
candidates after the stable ascending sort (`Vec::sort_by` is stable, as is
`List.mergeSort`). -/
def modelAwareEvicted (st : CacheManagerState) (weights : ModelWeights) :
    List (String × CacheEvicon) :=
  ((modelAwareCandidates st).mergeSort (eviconLe weights)).take 3

/-- `DimensionalCacheManager::cache_evict`: the `ModelAware` arm filters,
sorts and removes the three lowest-scoring candidates; the `LRU` arm removes
the single entry with the oldest `last_access` (no vector-state filter); the
remaining strategies are unimplemented in the source and evict nothing.
`update_heap_priorities` is a no-op in the source.  Returns the new state and
the list of evicted cache file ids. -/
def cacheEvict (st : CacheManagerState) (strategy : EvictionStrategy) :
    CacheManagerState × List String :=
  match strategy with
  | .ModelAware weights =>
    let evictedKeys := (modelAwareEvicted st weights).map Prod.fst
    ({ st with
        cacheEvicons :=
          st.cacheEvicons.filter fun e => !(evictedKeys.contains e.1) },
      evictedKeys)
  | .LRU =>
    let sorted :=
      st.cacheEvicons.mergeSort fun a b =>
        decide (a.2.lastAccess ≤ b.2.lastAccess)
    match sorted.head? with
    | some oldest =>
      ({ st with
          cacheEvicons :=
            st.cacheEvicons.filter fun e => !(e.1 == oldest.1) },
        [oldest.1])
    | none => (st, [])
  | _ => (st, [])

/-- `DimensionalCacheManager::monitor_pid_changes`: on a PID change, update
the binding's pid (if the binding exists) and bust the target at `Medium`
severity. -/
def monitorPidChanges (st : CacheManagerState) (target : String)
    (oldPid newPid : Option ℕ) (now : ℕ) : CacheManagerState × Bool :=
  if oldPid ≠ newPid then
    let st1 : CacheManagerState :=
      { st with
        modelBindings :=
          assocModify target (fun b => { b with pid := newPid })
            st.modelBindings }
    bustCache st1 target CacheBustSeverity.Medium now
  else (st, true)

/-! ## The PID watcher (`src/pid_watcher.rs`) -/

/-- `TargetConfig` from `pid_watcher.rs`. -/
structure TargetConfig where
  path : String
  runtime : String
  pidWatch : Bool
  enabled : Bool
  languagePriority : Option ℚ
  dependencyImpact : Option ℚ
  buildCost : Option ℚ
  criticalPath : Option Bool
deriving DecidableEq, Repr

/-- `RuntimeWatcher` from `pid_watcher.rs`. -/
structure RuntimeWatcher where
  targetName : String
  config : TargetConfig
  currentPid : Option ℕ
  lastFileHash : Option String
deriving DecidableEq, Repr

/-- `BustCallDaemon::monitor_pid`: one polling step, given the PID
`currentPid` that `get_runtime_pid` observed.  On a change it notifies the
cache manager (`monitor_pid_changes`, which itself busts at `Medium`),
records the new PID in the watcher, and then additionally busts at `High`
when the new PID is absent, or — the `else if watcher.current_pid.is_some()`
branch, evaluated after the watcher was updated — at `Medium` when the new
PID is present.  Each `?` propagates a bust failure, aborting the remaining
steps. -/
def monitorPid (targetName : String) (st : CacheManagerState)
    (watcher : RuntimeWatcher) (currentPid : Option ℕ) (now : ℕ) :
    CacheManagerState × RuntimeWatcher × Bool :=
  if watcher.currentPid ≠ currentPid then
    let r1 := monitorPidChanges st targetName watcher.currentPid currentPid now
    if r1.2 = false then (r1.1, watcher, false)
    else
      let watcher' := { watcher with currentPid := currentPid }
      if currentPid = none then
        let r2 := bustCache r1.1 targetName CacheBustSeverity.High now
        (r2.1, watcher', r2.2)
      else if watcher'.currentPid.isSome then
        let r2 := bustCache r1.1 targetName CacheBustSeverity.Medium now
        (r2.1, watcher', r2.2)
      else (r1.1, watcher', true)
  else (st, watcher, true)

/-! ## The FaultTorrent staging daemon (`src/bin/daemon.rs`) -/

/-- `FaultLevel` from `daemon.rs`, with its explicit discriminants
Warning = 0, Critical = 3, Danger = 6, Panic = 9. -/
inductive FaultLevel where
  | Warning
  | Critical
  | Danger
  | Panic
deriving DecidableEq, Repr

/-- The numeric discriminant of a `FaultLevel`. -/
def faultLevelScore : FaultLevel → ℕ
  | .Warning => 0
  | .Critical => 3
  | .Danger => 6
  | .Panic => 9

/-- `ProcessNode` from `daemon.rs`. -/
structure ProcessNode where
  nodeId : String
  unixPid : Option ℕ
  parentPid : Option ℕ
  commandLine : String
  workingDirectory : String
  faultLevel : FaultLevel
  lastHeartbeat : ℕ
  delegationWeight : ℚ
  childNodes : List String
  proofOfWorkNonce : Option ℕ
deriving DecidableEq, Repr

/-- One `heartbeat_monitor` tick applied to one node: if the node's last
heartbeat is more than 10 seconds old, set its fault level to `Critical` (and
report it failed); otherwise refresh `last_heartbeat` to the current time
(leaving `fault_level` untouched).  `current_time - node.last_heartbeat` is
embedded with truncated `ℕ` subtraction; the daemon only ever stores
timestamps that are in the past.  Returns the updated node and whether the
node was put on the failed list. -/
def heartbeatTick (currentTime : ℕ) (node : ProcessNode) :
    ProcessNode × Bool :=
  if currentTime - node.lastHeartbeat > 10 then
    ({ node with faultLevel := FaultLevel.Critical }, true)
  else
    ({ node with lastHeartbeat := currentTime }, false)

/-- `ProofOfWorkChallenge` from `daemon.rs`. -/
structure ProofOfWorkChallenge where
  challengeId : String
  targetDifficulty : ℕ
  taskPayload : List ℕ
  deadline : ℕ
  delegatorNode : String
deriving DecidableEq, Repr

/-- `DelegationTask` from `daemon.rs`. -/
structure DelegationTask where
  taskId : String
  targetNode : String
  command : String
  args : List String
  environment : List (String × String)
  timeoutSeconds : ℕ
  priority : ℕ
  proofRequired : Bool
  challenge : Option ProofOfWorkChallenge
deriving DecidableEq, Repr

/-- The delegation queue `BTreeMap<u8, VecDeque<DelegationTask>>`, embedded
as an association list in strictly ascending key order (the `BTreeMap`
iteration order), each tier front-first. -/
abbrev DelegQueue : Type := List (ℕ × List DelegationTask)

/-- `delegate_task`'s enqueue:
`queue.entry(task.priority).or_insert_with(VecDeque::new).push_back(task)`,
keeping the key order sorted as `BTreeMap` does. -/
def delegEnqueue (q : DelegQueue) (task : DelegationTask) : DelegQueue :=
  match q with
  | [] => [(task.priority, [task])]
  | (k, tier) :: rest =>
    if task.priority < k then (task.priority, [task]) :: (k, tier) :: rest
    else if task.priority = k then (k, tier ++ [task]) :: rest
    else (k, tier) :: delegEnqueue rest task

/-- `task_delegation_engine`'s dequeue:
`queue.iter_mut().max_by_key(|(priority, _)| *priority).and_then(|(_, tasks)|
tasks.pop_front())`.  With the strictly ascending key order the maximal key
is the last entry; `pop_front` takes the front of that tier, and an exhausted
tier stays in the map (`max_by_key` keeps selecting it). -/
def delegDequeue : DelegQueue → Option DelegationTask × DelegQueue
  | [] => (none, [])
  | [(k, tier)] =>
    match tier with
    | [] => (none, [(k, [])])
    | t :: ts => (some t, [(k, ts)])
  | e :: e' :: rest =>
    let r := delegDequeue (e' :: rest)
    (r.1, e :: r.2)

/-- Build the delegation queue by enqueuing a list of tasks in order into an
empty queue. -/
def delegBuild (tasks : List DelegationTask) : DelegQueue :=
  tasks.foldl delegEnqueue []

/-- Run `n` dequeue steps, collecting the returned tasks in order (an empty
result is final: without further enqueues a `none` step never becomes
`some`). -/
def delegPopSeq : ℕ → DelegQueue → List DelegationTask
  | 0, _ => []
  | n + 1, q =>
    match delegDequeue q with
    | (none, _) => []
    | (some t, q') => t :: delegPopSeq n q'

/-- The greatest priority occurring in a task list (`0` if empty). -/
def maxPrio (tasks : List DelegationTask) : ℕ :=
  tasks.foldl (fun m t => max m t.priority) 0

/-- The tier the dequeue serves: the deque of the greatest (= last) key. -/
def lastTier (q : DelegQueue) : List DelegationTask :=
  (q.getLast?.map Prod.snd).getD []

/-- Replace the deque of the last (greatest-key) entry. -/
def setLastTier (q : DelegQueue) (d : List DelegationTask) : DelegQueue :=
  match q with
  | [] => []
  | [(k, _)] => [(k, d)]
  | e :: e' :: rest => e :: setLastTier (e' :: rest) d

/-- The deque stored under key `k` (`[]` when the key is absent). -/
def tierGet (k : ℕ) (q : DelegQueue) : List DelegationTask :=
  (assocFind k q).getD []

/-! ## The Byzantine consensus handler (`src/bin/bustcall-daemon.rs`) -/

/-- `ConsensusNode` from `bustcall-daemon.rs`. -/
structure ConsensusNode where
  nodeId : String
  pid : ℕ
  lastHeartbeat : ℕ
  faultScore : ℚ
  delegationWeight : ℚ
deriving DecidableEq, Repr

/-- `MessageType` from `bustcall-daemon.rs`. -/
inductive MessageType where
  | Heartbeat
  | DelegationRequest (target : String) (priority : ℕ)
  | FaultReport (faultyNode : String) (severity : ℕ)
  | ConsensusVote (proposalId : String) (vote : Bool)
deriving DecidableEq, Repr

/-- `ConsensusMessage` from `bustcall-daemon.rs`. -/
structure ConsensusMessage where
  fromNode : String
  messageType : MessageType
  timestamp : ℕ
  proofOfWork : Option ℕ
deriving DecidableEq, Repr

/-- `handle_consensus_message`: a `Heartbeat` refreshes the sender's
`last_heartbeat` and decays its fault score
(`(fault_score * 0.9).max(0.0)`); a `FaultReport` adds `severity * 0.1` to
the reported node's fault score; other message types leave the registry
unchanged. -/
def handleConsensusMessage (message : ConsensusMessage)
    (registry : List (String × ConsensusNode)) :
    List (String × ConsensusNode) :=
  match message.messageType with
  | .Heartbeat =>
    assocModify message.fromNode
      (fun node =>
        { node with
          lastHeartbeat := message.timestamp
          faultScore := max (node.faultScore * (9 / 10)) 0 })
      registry
  | .FaultReport faultyNode severity =>
    assocModify faultyNode
      (fun node =>
        { node with faultScore := node.faultScore + (severity : ℚ) * (1 / 10) })
      registry
  | _ => registry

/-! ## The self-healing recovery escalator (`src/self_healing.rs`) -/

/-- Modelled from the spec: `SeverityLevel` is imported by
`self_healing.rs` from the crate root, whose defining module is not in the
source tree; its five variants are fixed by the exhaustive `match` in
`determine_recovery_strategy`, and the spec's recovery table maps them to the
numeric bands 0–2 (Ok/Warning), 3–5 (Danger), 6–8 (Critical), 9+ (Panic). -/
inductive SeverityLevel where
  | Ok
  | Warning
  | Danger
  | Critical
  | Panic
deriving DecidableEq, Repr

/-- Modelled from the spec: `BustCallError` is imported by `self_healing.rs`
from the crate root, whose defining module is not in the source tree; the
fields are fixed by the constructor sites in `self_healing.rs`'s tests
(`severity`, `message`, `component`, `recovery_action`), matching the spec's
error taxonomy of severity-classified, component-tagged errors whose text may
carry a compliance-rule identifier. -/
structure BustCallError where
  severity : SeverityLevel
  message : String
  component : String
  recoveryAction : Option String
deriving DecidableEq, Repr

/-- Rust's `str::contains` (substring search), on character lists. -/
def strContains (s pattern : String) : Bool :=
  decide (pattern.data <:+: s.data)

/-- `RecoveryStrategy` from `self_healing.rs`. -/
inductive RecoveryStrategy where
  | SoftRecovery (retryCount : ℕ) (backoffMs : ℕ)
  | HardRecovery (forceRebuild : Bool) (isolateComponent : Bool)
  | EmergencyRecovery (systemRestart : Bool) (escalateToSupervisor : Bool)
  | ConstitutionalEmergency (triggerLockdown : Bool) (notifyBoard : Bool)
deriving DecidableEq, Repr

/-- Whether a strategy is the Soft tier. -/
def RecoveryStrategy.isSoft : RecoveryStrategy → Bool
  | .SoftRecovery _ _ => true
  | _ => false

/-- `RecoveryResult` from `self_healing.rs`. -/
inductive RecoveryResult where
  | Success (strategyUsed : RecoveryStrategy) (recoveryTimeMs : ℕ)
      (healthRestored : Bool)
  | PartialRecovery (remainingIssues : List String)
      (nextStrategy : RecoveryStrategy)
  | Failed (error : String) (escalationRequired : Bool)
  | ManualIntervention (reason : String) (emergencyContacts : List String)
deriving DecidableEq, Repr

/-- `ComplianceRule` from `self_healing.rs`. -/
structure ComplianceRule where
  ruleId : String
  description : String
  violationSeverity : SeverityLevel
  autoRemediation : Bool
deriving DecidableEq, Repr

/-- `RemediationStatus` from `self_healing.rs`. -/
inductive RemediationStatus where
  | Pending
  | InProgress
  | Resolved
  | Failed
  | EscalatedToBoard
deriving DecidableEq, Repr

/-- `ComplianceViolation` from `self_healing.rs`. -/
structure ComplianceViolation where
  ruleId : String
  timestamp : ℕ
  component : String
  details : String
  remediationStatus : RemediationStatus
deriving DecidableEq, Repr

/-- `RecoveryAttempt` from `self_healing.rs`. -/
structure RecoveryAttempt where
  timestamp : ℕ
  component : String
  strategy : RecoveryStrategy
  result : RecoveryResult
  constitutionalImpact : Bool
deriving DecidableEq, Repr

/-- `IsolationLevel` from `self_healing.rs`. -/
inductive IsolationLevel where
  | None
  | ComponentLevel
  | SystemLevel
  | NetworkLevel
  | ConstitutionalEmergency
deriving DecidableEq, Repr

/-- `EmergencyProtocols` from `self_healing.rs`. -/
structure EmergencyProtocols where
  lockdownEnabled : Bool
  boardNotificationActive : Bool
  systemIsolationLevel : IsolationLevel
  recoveryEscalationChain : List String
deriving DecidableEq, Repr

/-- The mutable state of `SelfHealingArchitecture` (health monitors and the
system-health snapshot are carried opaquely by the operations modelled here
and are omitted; `HashMap` fields are embedded as association lists in
insertion order, standing for the unspecified `HashMap` iteration order). -/
structure SelfHealingState where
  recoveryStrategies : List (String × RecoveryStrategy)
  complianceRules : List (String × ComplianceRule)
  violationHistory : List ComplianceViolation
  emergencyThreshold : ℕ
  recoveryHistory : List RecoveryAttempt
  emergencyProtocols : EmergencyProtocols
deriving DecidableEq, Repr

/-- The per-ecosystem default strategies installed by
`SelfHealingArchitecture::new`. -/
def defaultRecoveryStrategies : List (String × RecoveryStrategy) :=
  [("node", .SoftRecovery 3 1000),
   ("python", .SoftRecovery 3 1500),
   ("c", .HardRecovery true false),
   ("gosilang", .HardRecovery false true)]

/-- The compliance rules installed by
`initialize_constitution_validator`. -/
def constitutionRules : List (String × ComplianceRule) :=
  [("AI_TRAINING_PROTECTION",
    { ruleId := "AI_TRAINING_PROTECTION"
      description := "Prevent unauthorized AI model training on cache data"
      violationSeverity := SeverityLevel.Critical
      autoRemediation := false }),
   ("POLYCORE_V2_CERTIFICATION",
    { ruleId := "POLYCORE_V2_CERTIFICATION"
      description := "Maintain PolyCore v2 certification standards"
      violationSeverity := SeverityLevel.Warning
      autoRemediation := true })]

/-- `SelfHealingArchitecture::new` (the parts of the state the modelled
operations touch). -/
def newSelfHealing : SelfHealingState :=
  { recoveryStrategies := defaultRecoveryStrategies
    complianceRules := constitutionRules
    violationHistory := []
    emergencyThreshold := 3
    recoveryHistory := []
    emergencyProtocols :=
      { lockdownEnabled := false
        boardNotificationActive := false
        systemIsolationLevel := IsolationLevel.None
        recoveryEscalationChain :=
          ["system_administrator", "technical_lead", "constitutional_board"] } }

/-- `SelfHealingArchitecture::is_constitutional_violation`: the message
contains `"constitutional"` or `"compliance"`, or the component contains
`"constitution"`. -/
def isConstitutionalViolation (error : BustCallError) : Bool :=
  strContains error.message "constitutional" ||
    strContains error.message "compliance" ||
      strContains error.component "constitution"

/-- `SelfHealingArchitecture::check_rule_violation`: the message or the
component contains the rule id. -/
def checkRuleViolation (rule : ComplianceRule) (error : BustCallError) :
    Bool :=
  strContains error.message rule.ruleId ||
    strContains error.component rule.ruleId

/-- `SelfHealingArchitecture::validate_constitutional_compliance`: return a
`ComplianceViolation` for the first rule (in map iteration order) the error
violates, if any. -/
def validateConstitutionalCompliance (st : SelfHealingState)
    (error : BustCallError) (now : ℕ) : Option ComplianceViolation :=
  (st.complianceRules.find? fun r => checkRuleViolation r.2 error).map
    fun r =>
      { ruleId := r.1
        timestamp := now
        component := error.component
        details := s!"Violation: {r.2.description} - {error.message}"
        remediationStatus := RemediationStatus.Pending }

/-- `SelfHealingArchitecture::determine_recovery_strategy`: a constitutional
violation routes to `ConstitutionalEmergency` before any severity check;
otherwise Ok/Warning take the component's registered strategy (default
`SoftRecovery {3, 1000}`), Danger takes `HardRecovery {true, false}`,
Critical takes `EmergencyRecovery {false, true}` and Panic takes
`EmergencyRecovery {true, true}`. -/
def determineRecoveryStrategy (st : SelfHealingState)
    (error : BustCallError) : RecoveryStrategy :=
  if isConstitutionalViolation error then
    RecoveryStrategy.ConstitutionalEmergency true true
  else
    match error.severity with
    | .Ok | .Warning =>
      (assocFind error.component st.recoveryStrategies).getD
        (RecoveryStrategy.SoftRecovery 3 1000)
    | .Danger => RecoveryStrategy.HardRecovery true false
    | .Critical => RecoveryStrategy.EmergencyRecovery false true
    | .Panic => RecoveryStrategy.EmergencyRecovery true true

/-- `refresh_component_cache`: always returns `Ok(())` in the source. -/
def refreshComponentCache (_component : String) : Except String Unit :=
  Except.ok ()

/-- `validate_component_health`: always returns `true` in the source. -/
def validateComponentHealth (_component : String) : Bool :=
  true

/-- `force_rebuild_component`: always returns `Ok(())` in the source. -/
def forceRebuildComponent (_component : String) : Except String Unit :=
  Except.ok ()

/-- `initiate_controlled_restart`: always returns `Ok(())` in the source. -/
def initiateControlledRestart : Except String Unit :=
  Except.ok ()

/-- The retry loop of `execute_soft_recovery`
(`for attempt in 1..=retry_count`): each attempt backs off exponentially,
refreshes the cache and re-checks health; the first healthy refresh returns
`Success` with the attempt's backoff delay as recovery time. -/
def softRecoveryLoop (component : String) (retryCount backoffMs : ℕ) :
    ℕ → RecoveryResult
  | 0 =>
    RecoveryResult.PartialRecovery
      [s!"Soft recovery failed for {component}"]
      (RecoveryStrategy.HardRecovery true false)
  | remaining + 1 =>
    let attempt := retryCount - remaining
    let delay := backoffMs * 2 ^ (attempt - 1)
    match refreshComponentCache component with
    | .ok _ =>
      if validateComponentHealth component then
        RecoveryResult.Success
          (RecoveryStrategy.SoftRecovery retryCount backoffMs) delay true
      else softRecoveryLoop component retryCount backoffMs remaining
    | .error _ => softRecoveryLoop component retryCount backoffMs remaining

/-- `execute_soft_recovery`. -/
def executeSoftRecovery (st : SelfHealingState) (error : BustCallError)
    (retryCount backoffMs : ℕ) : SelfHealingState × RecoveryResult :=
  (st, softRecoveryLoop error.component retryCount backoffMs retryCount)

/-- `execute_hard_recovery`: optionally isolate the component (isolation
level `ComponentLevel`), optionally force a rebuild; a healthy rebuild is
`Success` (estimated 5000 ms), a rebuild error is `Failed`, anything else
falls through to `PartialRecovery` with `EmergencyRecovery` as the next
strategy. -/
def executeHardRecovery (st : SelfHealingState) (error : BustCallError)
    (forceRebuild isolateComponent : Bool) :
    SelfHealingState × RecoveryResult :=
  let st1 :=
    if isolateComponent then
      { st with
        emergencyProtocols :=
          { st.emergencyProtocols with
            systemIsolationLevel := IsolationLevel.ComponentLevel } }
    else st
  let fallThrough :=
    RecoveryResult.PartialRecovery
      [s!"Hard recovery incomplete for {error.component}"]
      (RecoveryStrategy.EmergencyRecovery true true)
  if forceRebuild then
    match forceRebuildComponent error.component with
    | .ok _ =>
      if validateComponentHealth error.component then
        (st1,
          RecoveryResult.Success
            (RecoveryStrategy.HardRecovery forceRebuild isolateComponent)
            5000 true)
      else (st1, fallThrough)
    | .error rebuildError =>
      (st1,
        RecoveryResult.Failed
          s!"Hard recovery rebuild failed: {rebuildError}" true)
  else (st1, fallThrough)

/-- `execute_emergency_recovery`: raise the isolation level to
`SystemLevel`; a successful controlled restart is `Success` (estimated
10000 ms), a failed one is `Failed`; without a restart the result is
`ManualIntervention`. -/
def executeEmergencyRecovery (st : SelfHealingState) (error : BustCallError)
    (systemRestart escalateToSupervisor : Bool) :
    SelfHealingState × RecoveryResult :=
  let st1 :=
    { st with
      emergencyProtocols :=
        { st.emergencyProtocols with
          systemIsolationLevel := IsolationLevel.SystemLevel } }
  if systemRestart then
    match initiateControlledRestart with
    | .ok _ =>
      (st1,
        RecoveryResult.Success
          (RecoveryStrategy.EmergencyRecovery systemRestart
            escalateToSupervisor)
          10000 true)
    | .error restartError =>
      (st1,
        RecoveryResult.Failed s!"Emergency restart failed: {restartError}"
          true)
  else
    (st1,
      RecoveryResult.ManualIntervention
        "Emergency recovery requires manual intervention"
        ["emergency@obinexus.com", "uche.king@obinexus.com"])

/-- `execute_constitutional_emergency`: optionally enable lockdown (isolation
level `ConstitutionalEmergency`) and board notification; always a
`ManualIntervention`. -/
def executeConstitutionalEmergency (st : SelfHealingState)
    (_error : BustCallError) (triggerLockdown notifyBoard : Bool) :
    SelfHealingState × RecoveryResult :=
  let st1 :=
    if triggerLockdown then
      { st with
        emergencyProtocols :=
          { st.emergencyProtocols with
            lockdownEnabled := true
            systemIsolationLevel := IsolationLevel.ConstitutionalEmergency } }
    else st
  let st2 :=
    if notifyBoard then
      { st1 with
        emergencyProtocols :=
          { st1.emergencyProtocols with boardNotificationActive := true } }
    else st1
  (st2,
    RecoveryResult.ManualIntervention
      "Constitutional compliance violation - Board intervention required"
      ["constitutional.board@obinexus.com", "legal@obinexus.com",
        "uche.king@obinexus.com"])

/-- `record_recovery_attempt`: append one `RecoveryAttempt` (the
`recovery_time_ms` argument of the source function is unused there), then
trim the oldest 100 entries once the history exceeds 1000
(`drain(0..100)`). -/
def recordRecoveryAttempt (st : SelfHealingState) (error : BustCallError)
    (strategy : RecoveryStrategy) (result : RecoveryResult)
    (_recoveryTimeMs : ℕ) (now : ℕ) : SelfHealingState :=
  let attempt : RecoveryAttempt :=
    { timestamp := now
      component := error.component
      strategy := strategy
      result := result
      constitutionalImpact := isConstitutionalViolation error }
  let history := st.recoveryHistory ++ [attempt]
  { st with
    recoveryHistory := if history.length > 1000 then history.drop 100
      else history }

/-- `handle_constitutional_violation`: record the violation in the violation
history and return a `ManualIntervention` (no `RecoveryAttempt` is
recorded). -/
def handleConstitutionalViolation (st : SelfHealingState)
    (violation : ComplianceViolation) : SelfHealingState × RecoveryResult :=
  ({ st with violationHistory := st.violationHistory ++ [violation] },
    RecoveryResult.ManualIntervention
      s!"Constitutional violation: {violation.details}"
      ["constitutional.compliance@obinexus.com", "legal@obinexus.com"])

/-- `SelfHealingArchitecture::attempt_recovery`: validate constitutional
compliance (a violation short-circuits into
`handle_constitutional_violation`), otherwise determine and execute the
strategy and record the attempt.  `now` stands for the wall-clock timestamp,
`recoveryTimeMs` for the measured elapsed time (unused by the recording). -/
def attemptRecovery (st : SelfHealingState) (error : BustCallError)
    (now recoveryTimeMs : ℕ) : SelfHealingState × RecoveryResult :=
  match validateConstitutionalCompliance st error now with
  | some violation => handleConstitutionalViolation st violation
  | none =>
    let strategy := determineRecoveryStrategy st error
    let executed :=
      match strategy with
      | .SoftRecovery retryCount backoffMs =>
        executeSoftRecovery st error retryCount backoffMs
      | .HardRecovery forceRebuild isolateComponent =>
        executeHardRecovery st error forceRebuild isolateComponent
      | .EmergencyRecovery systemRestart escalateToSupervisor =>
        executeEmergencyRecovery st error systemRestart escalateToSupervisor
      | .ConstitutionalEmergency triggerLockdown notifyBoard =>
        executeConstitutionalEmergency st error triggerLockdown notifyBoard
    (recordRecoveryAttempt executed.1 error strategy executed.2 recoveryTimeMs
        now,
      executed.2)

/-- The eviction score exactly as the specification words it:
`0.3·access_frequency + 0.2·integrity_score +
dependency_impact·dependency_depth + language_priority`, multiplied by `2.0`
when `critical_path` is true. -/
def specEvictionScore (evicon : CacheEvicon) (weights : ModelWeights) : ℚ :=
  (if weights.criticalPath then (2 : ℚ) else 1) *
    ((3 / 10) * (evicon.accessFrequency : ℚ) +
      (2 / 10) * (evicon.integrityScore : ℚ) +
      weights.dependencyImpact * (evicon.dependencyDepth : ℚ) +
      weights.languagePriority)

/-! # Theorems -/

/-! ## Association-list lemmas -/

theorem assocFind_assocModify_self {β : Type} (k : String) (f : β → β) :
    ∀ l : List (String × β),
      assocFind k (assocModify k f l) = (assocFind k l).map f := by
  intro l
  induction l with
  | nil => rfl
  | cons p t ih =>
    obtain ⟨a, b⟩ := p
    by_cases hak : a = k
    · simp [assocFind, assocModify, hak]
    · simp [assocFind, assocModify, hak, ih]

theorem assocFind_assocModify_ne {β : Type} (k k' : String) (f : β → β)
    (hne : k' ≠ k) :
    ∀ l : List (String × β),
      assocFind k' (assocModify k f l) = assocFind k' l := by
  intro l
  induction l with
  | nil => rfl
  | cons p t ih =>
    obtain ⟨a, b⟩ := p
    by_cases hak : a = k
    · have hak' : a ≠ k' := by
        rw [hak]; exact fun h => hne h.symm
      simp [assocFind, assocModify, hak, hak', Ne.symm hne]
    · by_cases hak' : a = k' <;>
        simp [assocFind, assocModify, hak, hak', hne, ih]

theorem assocModify_of_find_none {β : Type} (k : String) (f : β → β) :
    ∀ l : List (String × β), assocFind k l = none → assocModify k f l = l := by
  intro l
  induction l with
  | nil => intro _; rfl
  | cons p t ih =>
    intro h
    obtain ⟨a, b⟩ := p
    by_cases hak : a = k
    · simp [assocFind, hak] at h
    · simp [assocFind, hak] at h
      simp [assocModify, hak, ih h]

/-! ## Heap lemmas: length, membership, permutation -/

theorem getD_of_lt {α : Type} (l : List α) (i : ℕ) (d : α)
    (h : i < l.length) : l.getD i d = l.get ⟨i, h⟩ := by
  simp [List.getD_eq_getElem?_getD, List.getElem?_eq_getElem h]

theorem getD_mem_or {α : Type} (l : List α) (i : ℕ) (d : α) :
    l.getD i d ∈ l ∨ l.getD i d = d := by
  by_cases h : i < l.length
  · rw [getD_of_lt l i d h]
    exact Or.inl (List.get_mem l i h)
  · right
    rw [List.getD_eq_getElem?_getD, List.getElem?_eq_none (by omega)]
    rfl

theorem length_siftUpGo (fuel : ℕ) :
    ∀ (x : PriorityEntry) (data : List PriorityEntry) (start pos : ℕ),
      (siftUpGo fuel x data start pos).length = data.length := by
  induction fuel with
  | zero => intro x data start pos; simp [siftUpGo]
  | succ n ih =>
    intro x data start pos
    simp only [siftUpGo]
    split
    · split
      · simp
      · rw [ih]; simp
    · simp

theorem length_siftUp (x : PriorityEntry) (data : List PriorityEntry)
    (start pos : ℕ) : (siftUp x data start pos).length = data.length :=
  length_siftUpGo pos x data start pos

theorem length_siftDownGo (fuel : ℕ) :
    ∀ (x : PriorityEntry) (data : List PriorityEntry) (start pos : ℕ),
      (siftDownGo fuel x data start pos).length = data.length := by
  induction fuel with
  | zero => intro x data start pos; simp [siftDownGo, length_siftUp]
  | succ n ih =>
    intro x data start pos
    simp only [siftDownGo]
    split
    · rw [ih]; simp
    · split
      · rw [length_siftUp]; simp
      · exact length_siftUp x data start pos

theorem mem_siftUpGo (fuel : ℕ) :
    ∀ (x : PriorityEntry) (data : List PriorityEntry) (start pos : ℕ)
      (y : PriorityEntry), y ∈ siftUpGo fuel x data start pos →
        y ∈ data ∨ y = x := by
  induction fuel with
  | zero =>
    intro x data start pos y hy
    exact List.mem_or_eq_of_mem_set hy
  | succ n ih =>
    intro x data start pos y hy
    simp only [siftUpGo] at hy
    split at hy
    · split at hy
      · exact List.mem_or_eq_of_mem_set hy
      · rcases ih x _ start _ y hy with h | h
        · rcases List.mem_or_eq_of_mem_set h with h' | h'
          · exact Or.inl h'
          · rcases getD_mem_or data ((pos - 1) / 2) x with hm | hm
            · exact Or.inl (by rw [h']; exact hm)
            · exact Or.inr (by rw [h', hm])
        · exact Or.inr h
    · exact List.mem_or_eq_of_mem_set hy

theorem mem_siftUp (x : PriorityEntry) (data : List PriorityEntry)
    (start pos : ℕ) (y : PriorityEntry) (hy : y ∈ siftUp x data start pos) :
    y ∈ data ∨ y = x :=
  mem_siftUpGo pos x data start pos y hy

theorem mem_siftDownGo (fuel : ℕ) :
    ∀ (x : PriorityEntry) (data : List PriorityEntry) (start pos : ℕ)
      (y : PriorityEntry), y ∈ siftDownGo fuel x data start pos →
        y ∈ data ∨ y = x := by
  induction fuel with
  | zero =>
    intro x data start pos y hy
    exact mem_siftUp x data start pos y hy
  | succ n ih =>
    intro x data start pos y hy
    simp only [siftDownGo] at hy
    split at hy
    · rcases ih x _ start _ y hy with h | h
      · rcases List.mem_or_eq_of_mem_set h with h' | h'
        · exact Or.inl h'
        · rcases getD_mem_or data _ x with hm | hm
          · exact Or.inl (by rw [h']; exact hm)
          · exact Or.inr (by rw [h', hm])
      · exact Or.inr h
    · split at hy
      · rcases mem_siftUp _ _ _ _ y hy with h | h
        · rcases List.mem_or_eq_of_mem_set h with h' | h'
          · exact Or.inl h'
          · rcases getD_mem_or data (2 * pos + 1) x with hm | hm
            · exact Or.inl (by rw [h']; exact hm)
            · exact Or.inr (by rw [h', hm])
        · exact Or.inr h
      · exact mem_siftUp _ _ _ _ y hy

open List in
theorem append_swap_last {α : Type} (l : List α) (a b : α) :
    l ++ [a] ++ [b] ~ l ++ [b] ++ [a] := by
  have h : [a] ++ [b] ~ [b] ++ [a] := List.Perm.swap b a []
  simpa [List.append_assoc] using List.Perm.append_left l h

open List in
theorem set_append_perm {α : Type} :
    ∀ (l : List α) (i : ℕ) (h : i < l.length) (v : α),
      (l.set i v) ++ [l.get ⟨i, h⟩] ~ l ++ [v] := by
  intro l
  induction l with
  | nil => intro i h; simp at h
  | cons a t ih =>
    intro i h v
    cases i with
    | zero =>
      simp only [List.set_cons_zero, List.get_cons_zero, List.cons_append]
      calc v :: (t ++ [a]) ~ v :: a :: t :=
            List.Perm.cons v (List.perm_append_singleton a t)
        _ ~ a :: v :: t := List.Perm.swap a v t
        _ ~ a :: (t ++ [v]) :=
            List.Perm.cons a (List.perm_append_singleton v t).symm
    | succ j =>
      simp only [List.set_cons_succ, List.get_cons_succ, List.cons_append]
      exact List.Perm.cons a (ih j (by simpa using h) v)

open List in
theorem siftUpGo_perm (fuel : ℕ) :
    ∀ (x : PriorityEntry) (data : List PriorityEntry) (start pos : ℕ)
      (h : pos < data.length),
      (siftUpGo fuel x data start pos) ++ [data.get ⟨pos, h⟩] ~ data ++ [x] := by
  induction fuel with
  | zero =>
    intro x data start pos h
    simpa [siftUpGo] using set_append_perm data pos h x
  | succ n ih =>
    intro x data start pos h
    simp only [siftUpGo]
    split
    · rename_i hlt
      have hp : (pos - 1) / 2 < data.length := by omega
      rw [getD_of_lt data ((pos - 1) / 2) x hp]
      split
      · exact set_append_perm data pos h x
      · have hne : (pos - 1) / 2 ≠ pos := by omega
        have h2 : (pos - 1) / 2 <
            (data.set pos (data.get ⟨(pos - 1) / 2, hp⟩)).length := by
          simpa using hp
        have hstep := ih x (data.set pos (data.get ⟨(pos - 1) / 2, hp⟩)) start
          ((pos - 1) / 2) h2
        have hget : (data.set pos (data.get ⟨(pos - 1) / 2, hp⟩)).get
            ⟨(pos - 1) / 2, h2⟩ = data.get ⟨(pos - 1) / 2, hp⟩ := by
          simp [List.get_eq_getElem, List.getElem_set_ne (by omega : pos ≠ (pos - 1) / 2)]
        rw [hget] at hstep
        have hset := set_append_perm data pos h (data.get ⟨(pos - 1) / 2, hp⟩)
        have key :
            (siftUpGo n x (data.set pos (data.get ⟨(pos - 1) / 2, hp⟩)) start
                ((pos - 1) / 2)) ++ [data.get ⟨pos, h⟩] ++
                [data.get ⟨(pos - 1) / 2, hp⟩] ~
              (data ++ [x]) ++ [data.get ⟨(pos - 1) / 2, hp⟩] := by
          calc (siftUpGo n x (data.set pos (data.get ⟨(pos - 1) / 2, hp⟩)) start
                ((pos - 1) / 2)) ++ [data.get ⟨pos, h⟩] ++
                [data.get ⟨(pos - 1) / 2, hp⟩]
              ~ (siftUpGo n x (data.set pos (data.get ⟨(pos - 1) / 2, hp⟩)) start
                ((pos - 1) / 2)) ++ [data.get ⟨(pos - 1) / 2, hp⟩] ++
                [data.get ⟨pos, h⟩] := append_swap_last _ _ _
            _ ~ (data.set pos (data.get ⟨(pos - 1) / 2, hp⟩) ++ [x]) ++
                [data.get ⟨pos, h⟩] := List.Perm.append_right _ hstep
            _ ~ (data.set pos (data.get ⟨(pos - 1) / 2, hp⟩) ++
                [data.get ⟨pos, h⟩]) ++ [x] := append_swap_last _ _ _
            _ ~ (data ++ [data.get ⟨(pos - 1) / 2, hp⟩]) ++ [x] :=
                List.Perm.append_right _ hset
            _ ~ (data ++ [x]) ++ [data.get ⟨(pos - 1) / 2, hp⟩] :=
                append_swap_last _ _ _
        exact (List.perm_append_right_iff _).mp key
    · exact set_append_perm data pos h x

open List in
theorem heapPush_perm (data : List PriorityEntry) (x : PriorityEntry) :
    heapPush data x ~ x :: data := by
  have hlen : data.length < (data ++ [x]).length := by simp
  have h := siftUpGo_perm data.length x (data ++ [x]) 0 data.length hlen
  have hx : (data ++ [x]).get ⟨data.length, hlen⟩ = x := by
    simp [List.get_eq_getElem, List.getElem_append_right (Nat.le_refl data.length)]
  rw [hx] at h
  have h2 : heapPush data x ~ data ++ [x] :=
    (List.perm_append_right_iff [x]).mp h
  exact h2.trans (List.perm_append_singleton x data)


/-! ## Heap lemmas: the shape invariant through `push` and `pop` -/

theorem getD_congr {α : Type} (l : List α) (i : ℕ) (d d' : α)
    (h : i < l.length) : l.getD i d = l.getD i d' := by
  rw [getD_of_lt l i d h, getD_of_lt l i d' h]

theorem scoreAt_set_self (l : List PriorityEntry) (i : ℕ) (v : PriorityEntry)
    (h : i < l.length) : scoreAt (l.set i v) i = v.priorityScore := by
  unfold scoreAt
  rw [getD_of_lt _ i _ (by simpa using h)]
  simp [List.get_eq_getElem]

theorem scoreAt_set_ne (l : List PriorityEntry) (i j : ℕ)
    (v : PriorityEntry) (hne : i ≠ j) :
    scoreAt (l.set i v) j = scoreAt l j := by
  unfold scoreAt
  rw [List.getD_eq_getElem?_getD, List.getD_eq_getElem?_getD,
    List.getElem?_set_ne hne]

theorem scoreAt_getD (l : List PriorityEntry) (i : ℕ) (d : PriorityEntry)
    (h : i < l.length) : (l.getD i d).priorityScore = scoreAt l i := by
  unfold scoreAt
  rw [getD_congr l i d defaultPE h]

/-- Writing the carried element into the hole restores the heap shape,
provided the sift invariants hold and the element fits under the hole's
parent. -/
theorem set_hole_heapProp (x : PriorityEntry) (data : List PriorityEntry)
    (pos : ℕ) (hpos : pos < data.length) (h1 : holeInv data pos)
    (h2 : childrenLeX data pos x)
    (hparent : 0 < pos → x.priorityScore ≤ scoreAt data ((pos - 1) / 2)) :
    heapProp (data.set pos x) := by
  intro i hi h
  have hlen : i < data.length := by simpa using h
  by_cases hip : i = pos
  · subst hip
    rw [scoreAt_set_self data i x hlen,
      scoreAt_set_ne data i ((i - 1) / 2) x (by omega)]
    exact hparent hi
  · rw [scoreAt_set_ne data pos i x (fun hh => hip hh.symm)]
    by_cases hpp : (i - 1) / 2 = pos
    · rw [hpp, scoreAt_set_self data pos x hpos]
      exact h2 i hi hlen hpp
    · rw [scoreAt_set_ne data pos ((i - 1) / 2) x (fun hh => hpp hh.symm)]
      exact h1 i hi hlen hip hpp

theorem siftUpGo_heapProp (fuel : ℕ) :
    ∀ (x : PriorityEntry) (data : List PriorityEntry) (pos : ℕ),
      pos ≤ fuel → pos < data.length → holeInv data pos →
      childrenLeX data pos x → childrenLeGrand data pos →
      heapProp (siftUpGo fuel x data 0 pos) := by
  induction fuel with
  | zero =>
    intro x data pos hfl hpos h1 h2 _h3
    have hz : pos = 0 := by omega
    subst hz
    simp only [siftUpGo]
    exact set_hole_heapProp x data 0 hpos h1 h2 (by omega)
  | succ n ih =>
    intro x data pos hfl hpos h1 h2 h3
    simp only [siftUpGo]
    split
    · rename_i hlt
      have hp : (pos - 1) / 2 < data.length := by omega
      have hxp : (data.getD ((pos - 1) / 2) x).priorityScore =
          scoreAt data ((pos - 1) / 2) := scoreAt_getD data _ x hp
      split
      · rename_i hle
        have hle' : x.priorityScore ≤ scoreAt data ((pos - 1) / 2) := by
          rw [← hxp]
          simpa [peLe] using hle
        exact set_hole_heapProp x data pos hpos h1 h2 (fun _ => hle')
      · rename_i hgt
        have hgt' : scoreAt data ((pos - 1) / 2) < x.priorityScore := by
          rw [← hxp]
          simpa [peLe] using hgt
        -- the parent moves down into the hole; re-establish the invariants
        -- for the hole at the parent position
        have hlen' : (pos - 1) / 2 <
            (data.set pos (data.getD ((pos - 1) / 2) x)).length := by
          simpa using hp
        apply ih x _ ((pos - 1) / 2) (by omega) hlen'
        · -- holeInv after the move
          intro i hi h hip hpp
          have hilen : i < data.length := by simpa using h
          have hipos : i ≠ pos := by
            intro hh
            exact hpp (by rw [hh])
          rw [scoreAt_set_ne data pos i _ (fun hh => hipos hh.symm)]
          by_cases hpar : (i - 1) / 2 = pos
          · rw [hpar, scoreAt_set_self data pos _ hpos, hxp]
            exact h3 hlt i hi hilen hpar
          · rw [scoreAt_set_ne data pos ((i - 1) / 2) _
              (fun hh => hpar hh.symm)]
            exact h1 i hi hilen hipos hpar
        · -- childrenLeX after the move
          intro i hi h hpar
          have hilen : i < data.length := by simpa using h
          by_cases hipos : i = pos
          · subst hipos
            rw [scoreAt_set_self data i _ hilen, hxp]
            exact le_of_lt hgt'
          · rw [scoreAt_set_ne data pos i _ (fun hh => hipos hh.symm)]
            have hd := h1 i hi hilen hipos (by omega)
            rw [hpar] at hd
            exact le_trans hd (le_of_lt hgt')
        · -- childrenLeGrand after the move
          intro h0 i hi h hpar
          have hilen : i < data.length := by simpa using h
          have hg : pos ≠ ((pos - 1) / 2 - 1) / 2 := by omega
          rw [scoreAt_set_ne data pos (((pos - 1) / 2 - 1) / 2) _ hg]
          have hpg : scoreAt data ((pos - 1) / 2) ≤
              scoreAt data (((pos - 1) / 2 - 1) / 2) :=
            h1 ((pos - 1) / 2) h0 hp (by omega) (by omega)
          by_cases hipos : i = pos
          · subst hipos
            rw [scoreAt_set_self data i _ hilen, hxp]
            exact hpg
          · rw [scoreAt_set_ne data pos i _ (fun hh => hipos hh.symm)]
            have hd := h1 i hi hilen hipos (by omega)
            rw [hpar] at hd
            exact le_trans hd hpg
    · rename_i hnlt
      have hz : pos = 0 := by omega
      subst hz
      exact set_hole_heapProp x data 0 hpos h1 h2 (by omega)

theorem siftUp_heapProp (x : PriorityEntry) (data : List PriorityEntry)
    (pos : ℕ) (hpos : pos < data.length) (h1 : holeInv data pos)
    (h2 : childrenLeX data pos x) (h3 : childrenLeGrand data pos) :
    heapProp (siftUp x data 0 pos) :=
  siftUpGo_heapProp pos x data pos (Nat.le_refl pos) hpos h1 h2 h3

theorem siftDownGo_heapProp (fuel : ℕ) :
    ∀ (x : PriorityEntry) (data : List PriorityEntry) (pos : ℕ),
      data.length ≤ fuel + pos → pos < data.length →
      holeInv data pos → childrenLeGrand data pos →
      heapProp (siftDownGo fuel x data 0 pos) := by
  induction fuel with
  | zero =>
    intro x data pos hfl hpos _h1 _h3
    omega
  | succ n ih =>
    intro x data pos hfl hpos h1 h3
    simp only [siftDownGo]
    split
    · rename_i h2lt
      -- two children in range; the hole moves through the greater child
      have hc1 : 2 * pos + 1 < data.length := by omega
      have hc2 : 2 * pos + 2 < data.length := by omega
      have main : ∀ c o : ℕ, c < data.length → o < data.length →
          pos < c → (c - 1) / 2 = pos →
          (∀ j, 0 < j → j < data.length → (j - 1) / 2 = pos → j = c ∨ j = o) →
          c ≠ o → scoreAt data o ≤ scoreAt data c →
          heapProp (siftDownGo n x (data.set pos (data.getD c x)) 0 c) := by
        intro c o hc ho hcpos hcp hcex hco hle
        have hval : (data.getD c x).priorityScore = scoreAt data c :=
          scoreAt_getD data c x hc
        have hlenc : c < (data.set pos (data.getD c x)).length := by
          simpa using hc
        apply ih x _ c (by simp; omega) hlenc
        · -- holeInv after the move
          intro i hi h hic hpc
          have hilen : i < data.length := by simpa using h
          by_cases hipos : i = pos
          · -- the moved child fits below the hole's old parent
            subst hipos
            rw [scoreAt_set_self data i _ hilen, hval,
              scoreAt_set_ne data i ((i - 1) / 2) _ (by omega)]
            exact h3 hi c (by omega) hc hcp
          · by_cases hpar : (i - 1) / 2 = pos
            · -- the remaining child of the old hole sits under the moved one
              rcases hcex i hi hilen hpar with hh | hh
              · exact absurd hh hic
              · subst hh
                rw [scoreAt_set_ne data pos i _ (fun hh2 => hipos hh2.symm),
                  hpar, scoreAt_set_self data pos _ hpos, hval]
                exact hle
            · rw [scoreAt_set_ne data pos i _ (fun hh => hipos hh.symm),
                scoreAt_set_ne data pos ((i - 1) / 2) _
                  (fun hh => hpar hh.symm)]
              exact h1 i hi hilen hipos hpar
        · -- childrenLeGrand after the move: children of the new hole sit
          -- under the moved value at the old hole, their grandparent
          intro h0 i hi h hpar
          have hilen : i < data.length := by simpa using h
          have hipos : i ≠ pos := by omega
          have hiic : i ≠ c := by omega
          rw [scoreAt_set_ne data pos i _ (fun hh => hipos hh.symm), hcp,
            scoreAt_set_self data pos _ hpos, hval]
          have hd := h1 i hi hilen hipos (by omega)
          rw [hpar] at hd
          exact hd
      split
      · rename_i hle
        have hle' : scoreAt data (2 * pos + 1) ≤ scoreAt data (2 * pos + 2) := by
          rw [← scoreAt_getD data _ x hc1, ← scoreAt_getD data _ x hc2]
          simpa [peLe] using hle
        exact main (2 * pos + 2) (2 * pos + 1) hc2 hc1 (by omega) (by omega)
          (fun j hj hjl hjp => by omega) (by omega) hle'
      · rename_i hgt
        have hgt2 : ¬((data.getD (2 * pos + 1) x).priorityScore ≤
            (data.getD (2 * pos + 2) x).priorityScore) := by
          intro hcon
          exact hgt (by simp only [peLe, decide_eq_true_eq]; exact hcon)
        have hgt' : scoreAt data (2 * pos + 2) < scoreAt data (2 * pos + 1) := by
          rw [← scoreAt_getD data _ x hc1, ← scoreAt_getD data _ x hc2]
          exact lt_of_not_le hgt2
        exact main (2 * pos + 1) (2 * pos + 2) hc1 hc2 (by omega) (by omega)
          (fun j hj hjl hjp => by omega) (by omega) (le_of_lt hgt')
    · split
      · rename_i hn2 heq
        -- exactly the last child: move it up, hole becomes a leaf, sift up
        have hc1 : 2 * pos + 1 < data.length := by omega
        have hval : (data.getD (2 * pos + 1) x).priorityScore =
            scoreAt data (2 * pos + 1) := scoreAt_getD data _ x hc1
        have hlenc : 2 * pos + 1 <
            (data.set pos (data.getD (2 * pos + 1) x)).length := by
          simpa using hc1
        apply siftUp_heapProp x _ (2 * pos + 1) hlenc
        · -- holeInv after the move
          intro i hi h hic hpc
          have hilen : i < data.length := by simpa using h
          by_cases hipos : i = pos
          · subst hipos
            rw [scoreAt_set_self data i _ hilen, hval,
              scoreAt_set_ne data i ((i - 1) / 2) _ (by omega)]
            exact h3 hi (2 * i + 1) (by omega) hc1 (by omega)
          · by_cases hpar : (i - 1) / 2 = pos
            · -- the other child of the old hole would be index 2·pos+2 =
              -- length, out of range
              omega
            · rw [scoreAt_set_ne data pos i _ (fun hh => hipos hh.symm),
                scoreAt_set_ne data pos ((i - 1) / 2) _
                  (fun hh => hpar hh.symm)]
              exact h1 i hi hilen hipos hpar
        · -- the new hole is a leaf: no children in range
          intro i hi h hpar
          have : i < data.length := by simpa using h
          omega
        · intro h0 i hi h hpar
          have : i < data.length := by simpa using h
          omega
      · -- no children in range: the hole is already a leaf
        rename_i hn2 hne
        apply siftUp_heapProp x data pos hpos h1
        · intro i hi h hpar
          omega
        · exact h3

theorem heapPush_heapProp (data : List PriorityEntry) (x : PriorityEntry)
    (hd : heapProp data) : heapProp (heapPush data x) := by
  unfold heapPush
  have happ : ∀ j, j < data.length →
      scoreAt (data ++ [x]) j = scoreAt data j := by
    intro j hj
    unfold scoreAt
    rw [List.getD_eq_getElem?_getD, List.getD_eq_getElem?_getD,
      List.getElem?_append_left hj]
  apply siftUp_heapProp x (data ++ [x]) data.length (by simp)
  · intro i hi h hip hpp
    have hilen : i < data.length := by
      have : i < data.length + 1 := by simpa using h
      omega
    have hplen : (i - 1) / 2 < data.length := by omega
    rw [happ i hilen, happ ((i - 1) / 2) hplen]
    exact hd i hi hilen
  · intro i hi h hpar
    have : i < data.length + 1 := by simpa using h
    omega
  · intro h0 i hi h hpar
    have : i < data.length + 1 := by simpa using h
    omega

theorem heapPop_heapProp (data : List PriorityEntry) (hd : heapProp data) :
    heapProp (heapPop data).2 := by
  match data with
  | [] => intro i hi h; simp [heapPop] at h
  | [x] => intro i hi h; simp [heapPop] at h
  | x :: y :: t =>
    simp only [heapPop]
    unfold siftDownToBottom
    have hlast : (x :: y :: t) ≠ [] := by simp
    have hdrop : ∀ j, j < (x :: y :: t).dropLast.length →
        scoreAt ((x :: y :: t).dropLast) j = scoreAt (x :: y :: t) j := by
      intro j hj
      have hj' : j < (x :: y :: t).length - 1 := by
        rw [← List.length_dropLast]
        exact hj
      have hjfull : j < (x :: y :: t).length := by omega
      unfold scoreAt
      rw [getD_of_lt _ j _ hj, getD_of_lt _ j _ hjfull]
      simp only [List.get_eq_getElem]
      rw [List.getElem_dropLast]
    apply siftDownGo_heapProp _ _ _ 0 (by omega) (by simp)
    · -- pairs not involving the root hole are pairs of the original heap
      intro i hi h hic hpc
      have hilen : i < (x :: y :: t).dropLast.length := by simpa using h
      have hplen : (i - 1) / 2 < (x :: y :: t).dropLast.length := by
        simp at hilen ⊢
        omega
      rw [scoreAt_set_ne _ 0 i _ (fun hh => hic hh.symm),
        scoreAt_set_ne _ 0 ((i - 1) / 2) _ (fun hh => hpc hh.symm),
        hdrop i hilen, hdrop ((i - 1) / 2) hplen]
      exact hd i hi (by simp at hilen ⊢; omega)
    · intro h0
      omega

/-! ## Heap lemmas: the pop sequence is sorted by score -/

theorem heapProp_nil : heapProp ([] : List PriorityEntry) := by
  intro i hi h
  simp at h

theorem heapProp_le_root (l : List PriorityEntry) (hl : heapProp l) :
    ∀ i, i < l.length → scoreAt l i ≤ scoreAt l 0 := by
  intro i
  induction i using Nat.strong_induction_on with
  | _ i ih =>
    intro h
    rcases Nat.eq_zero_or_pos i with hz | hp
    · subst hz; exact le_refl _
    · exact le_trans (hl i hp h) (ih ((i - 1) / 2) (by omega) (by omega))

theorem le_scoreAt_root (l : List PriorityEntry) (hl : heapProp l)
    (y : PriorityEntry) (hy : y ∈ l) : y.priorityScore ≤ scoreAt l 0 := by
  rcases List.getElem_of_mem hy with ⟨i, hi, he⟩
  have hs : scoreAt l i = y.priorityScore := by
    unfold scoreAt
    rw [getD_of_lt l i defaultPE hi]
    simp [List.get_eq_getElem, he]
  rw [← hs]
  exact heapProp_le_root l hl i hi

theorem mem_heapPop_rest (l : List PriorityEntry) (y : PriorityEntry) :
    y ∈ (heapPop l).2 → y ∈ l := by
  match l with
  | [] => intro h; simp [heapPop] at h
  | [x] => intro h; simp [heapPop] at h
  | x :: y' :: t =>
    intro hy
    simp only [heapPop] at hy
    unfold siftDownToBottom at hy
    rcases mem_siftDownGo _ _ _ _ _ _ hy with h | h
    · rcases List.mem_or_eq_of_mem_set h with h' | h'
      · exact List.mem_of_mem_dropLast h'
      · rw [h']; exact List.getLast_mem _
    · rw [h]; exact List.getLast_mem _

theorem popSeqGo_nil (n : ℕ) : popSeqGo n [] = [] := by
  cases n <;> simp [popSeqGo, heapPop]

theorem popSeqGo_subset :
    ∀ (n : ℕ) (l : List PriorityEntry) (y : PriorityEntry),
      y ∈ popSeqGo n l → y ∈ l := by
  intro n
  induction n with
  | zero => intro l y h; simp [popSeqGo] at h
  | succ m ih =>
    intro l y h
    match l with
    | [] => rw [popSeqGo_nil] at h; simp at h
    | [x] =>
      have hx : popSeqGo (m + 1) [x] = [x] := by
        simp [popSeqGo, heapPop, popSeqGo_nil]
      rw [hx] at h
      simpa using h
    | x :: y' :: t =>
      have hx : popSeqGo (m + 1) (x :: y' :: t) =
          x :: popSeqGo m ((heapPop (x :: y' :: t)).2) := rfl
      rw [hx] at h
      rcases List.mem_cons.mp h with h' | h'
      · rw [h']; exact List.mem_cons_self x _
      · exact mem_heapPop_rest _ y (ih _ y h')

theorem popSeqGo_sorted :
    ∀ (n : ℕ) (l : List PriorityEntry), heapProp l →
      List.Pairwise (fun a b : PriorityEntry =>
        b.priorityScore ≤ a.priorityScore) (popSeqGo n l) := by
  intro n
  induction n with
  | zero => intro l _; simp [popSeqGo]
  | succ m ih =>
    intro l hl
    match l with
    | [] => rw [popSeqGo_nil]; exact List.Pairwise.nil
    | [x] =>
      have hx : popSeqGo (m + 1) [x] = [x] := by
        simp [popSeqGo, heapPop, popSeqGo_nil]
      rw [hx]
      simp
    | x :: y' :: t =>
      have hx : popSeqGo (m + 1) (x :: y' :: t) =
          x :: popSeqGo m ((heapPop (x :: y' :: t)).2) := rfl
      rw [hx]
      refine List.pairwise_cons.mpr ⟨?_, ih _ (heapPop_heapProp _ hl)⟩
      intro z hz
      have hz1 : z ∈ (heapPop (x :: y' :: t)).2 := popSeqGo_subset m _ z hz
      have hz2 : z ∈ x :: y' :: t := mem_heapPop_rest _ z hz1
      have hroot : scoreAt (x :: y' :: t) 0 = x.priorityScore := rfl
      have := le_scoreAt_root (x :: y' :: t) hl z hz2
      rw [hroot] at this
      exact this

theorem heapProp_foldl (pushes : List PriorityEntry) :
    ∀ l, heapProp l → heapProp (pushes.foldl heapPush l) := by
  induction pushes with
  | nil => intro l hl; exact hl
  | cons p ps ih =>
    intro l hl
    exact ih (heapPush l p) (heapPush_heapProp l p hl)

/-! ## Delegation queue lemmas -/

theorem assocFind_eq_none {κ β : Type} [DecidableEq κ] (k : κ) :
    ∀ l : List (κ × β), (∀ e ∈ l, e.1 ≠ k) → assocFind k l = none := by
  intro l
  induction l with
  | nil => intro _; rfl
  | cons e t ih =>
    intro h
    obtain ⟨a, b⟩ := e
    have ha : a ≠ k := h (a, b) (List.mem_cons_self _ _)
    simp only [assocFind, if_neg ha]
    exact ih fun e he => h e (List.mem_cons_of_mem _ he)

theorem mem_delegEnqueue_keys (t : DelegationTask) :
    ∀ (q : DelegQueue) (k : ℕ),
      k ∈ (delegEnqueue q t).map Prod.fst ↔
        k ∈ q.map Prod.fst ∨ k = t.priority := by
  intro q
  induction q with
  | nil => intro k; simp [delegEnqueue, eq_comm]
  | cons e rest ih =>
    intro k
    obtain ⟨k0, tier⟩ := e
    simp only [delegEnqueue]
    by_cases h1 : t.priority < k0
    · simp [h1, eq_comm]
      tauto
    · by_cases h2 : t.priority = k0
      · simp only [if_neg h1, if_pos h2, List.map_cons, List.mem_cons]
        constructor
        · exact fun hh => Or.inl hh
        · rintro (hh | hh)
          · exact hh
          · exact Or.inl (by omega)
      · simp only [if_neg h1, if_neg h2, List.map_cons, List.mem_cons, ih k]
        tauto

theorem delegEnqueue_sorted (t : DelegationTask) :
    ∀ q : DelegQueue, (q.map Prod.fst).Sorted (· < ·) →
      ((delegEnqueue q t).map Prod.fst).Sorted (· < ·) := by
  intro q
  induction q with
  | nil => intro _; simp [delegEnqueue, List.Sorted]
  | cons e rest ih =>
    intro hs
    obtain ⟨k0, tier⟩ := e
    have hs' : (rest.map Prod.fst).Sorted (· < ·) :=
      (List.pairwise_cons.mp hs).2
    have hk0 : ∀ k ∈ rest.map Prod.fst, k0 < k :=
      (List.pairwise_cons.mp hs).1
    simp only [delegEnqueue]
    by_cases h1 : t.priority < k0
    · simp only [if_pos h1, List.map_cons]
      refine List.pairwise_cons.mpr ⟨?_, hs⟩
      intro k hk
      simp only [List.map_cons, List.mem_cons] at hk
      rcases hk with hk | hk
      · omega
      · exact lt_trans h1 (hk0 k hk)
    · by_cases h2 : t.priority = k0
      · simp only [if_neg h1, if_pos h2, List.map_cons]
        exact List.pairwise_cons.mpr ⟨hk0, hs'⟩
      · simp only [if_neg h1, if_neg h2, List.map_cons]
        refine List.pairwise_cons.mpr ⟨?_, ih hs'⟩
        intro k hk
        rcases (mem_delegEnqueue_keys t rest k).mp hk with hk | hk
        · exact hk0 k hk
        · omega

theorem tierGet_delegEnqueue (t : DelegationTask) :
    ∀ (q : DelegQueue) (k : ℕ), (q.map Prod.fst).Sorted (· < ·) →
      tierGet k (delegEnqueue q t) =
        tierGet k q ++ (if t.priority = k then [t] else []) := by
  intro q
  induction q with
  | nil =>
    intro k _
    by_cases h : t.priority = k <;>
      simp [delegEnqueue, tierGet, assocFind, h]
  | cons e rest ih =>
    intro k hs
    obtain ⟨k0, tier⟩ := e
    have hs' : (rest.map Prod.fst).Sorted (· < ·) :=
      (List.pairwise_cons.mp hs).2
    have hk0 : ∀ k' ∈ rest.map Prod.fst, k0 < k' :=
      (List.pairwise_cons.mp hs).1
    simp only [delegEnqueue]
    by_cases h1 : t.priority < k0
    · simp only [if_pos h1]
      by_cases hk : t.priority = k
      · -- the key `k` is fresh: it is smaller than every key present
        have hk0k : ¬k0 = k := by omega
        have hrest : assocFind k rest = none := by
          apply assocFind_eq_none
          intro e he
          have : k0 < e.1 := hk0 e.1 (List.mem_map_of_mem Prod.fst he)
          omega
        simp [tierGet, assocFind, hk, hk0k, hrest]
      · simp [tierGet, assocFind, hk]
    · by_cases h2 : t.priority = k0
      · simp only [if_neg h1, if_pos h2]
        by_cases hk : k0 = k
        · subst hk
          simp [tierGet, assocFind, h2]
        · have htk : ¬t.priority = k := by omega
          simp [tierGet, assocFind, hk, htk]
      · simp only [if_neg h1, if_neg h2]
        by_cases hk : k0 = k
        · subst hk
          have htk : ¬t.priority = k0 := h2
          simp [tierGet, assocFind, htk]
        · simp only [tierGet, assocFind, if_neg hk]
          exact ih k hs'

theorem delegBuild_go (tasks : List DelegationTask) :
    ∀ (q : DelegQueue) (acc : List DelegationTask),
      (q.map Prod.fst).Sorted (· < ·) →
      (∀ k, tierGet k q = acc.filter (fun t => t.priority == k)) →
      (∀ k, k ∈ q.map Prod.fst ↔ k ∈ acc.map (fun t => t.priority)) →
      ((tasks.foldl delegEnqueue q).map Prod.fst).Sorted (· < ·) ∧
      (∀ k, tierGet k (tasks.foldl delegEnqueue q) =
        (acc ++ tasks).filter (fun t => t.priority == k)) ∧
      (∀ k, k ∈ (tasks.foldl delegEnqueue q).map Prod.fst ↔
        k ∈ (acc ++ tasks).map (fun t => t.priority)) := by
  induction tasks with
  | nil =>
    intro q acc h1 h2 h3
    simp only [List.foldl_nil, List.append_nil]
    exact ⟨h1, h2, h3⟩
  | cons t ts ih =>
    intro q acc h1 h2 h3
    have step := ih (delegEnqueue q t) (acc ++ [t])
      (delegEnqueue_sorted t q h1)
      (by
        intro k
        rw [tierGet_delegEnqueue t q k h1, h2 k, List.filter_append]
        congr 1
        by_cases hk : t.priority = k <;> simp [hk])
      (by
        intro k
        rw [mem_delegEnqueue_keys t q k, h3 k]
        simp [eq_comm])
    rw [show acc ++ t :: ts = (acc ++ [t]) ++ ts by simp]
    simpa using step

theorem delegBuild_spec (tasks : List DelegationTask) :
    ((delegBuild tasks).map Prod.fst).Sorted (· < ·) ∧
    (∀ k, tierGet k (delegBuild tasks) =
      tasks.filter (fun t => t.priority == k)) ∧
    (∀ k, k ∈ (delegBuild tasks).map Prod.fst ↔
      k ∈ tasks.map (fun t => t.priority)) := by
  have h := delegBuild_go tasks [] []
    (by simp [List.Sorted])
    (by intro k; simp [tierGet, assocFind])
    (by intro k; simp)
  simpa [delegBuild] using h

theorem le_maxPrio (tasks : List DelegationTask) :
    ∀ t ∈ tasks, t.priority ≤ maxPrio tasks := by
  have gen : ∀ (l : List DelegationTask) (a : ℕ),
      a ≤ l.foldl (fun m t => max m t.priority) a ∧
      ∀ t ∈ l, t.priority ≤ l.foldl (fun m t => max m t.priority) a := by
    intro l
    induction l with
    | nil => intro a; simp
    | cons t ts ih =>
      intro a
      have h := ih (max a t.priority)
      constructor
      · exact le_trans (le_max_left a t.priority) h.1
      · intro t' ht'
        rcases List.mem_cons.mp ht' with h' | h'
        · rw [h']
          exact le_trans (le_max_right a t.priority) h.1
        · exact h.2 t' h'
  exact (gen tasks 0).2

theorem maxPrio_mem (tasks : List DelegationTask) (h : tasks ≠ []) :
    maxPrio tasks ∈ tasks.map (fun t => t.priority) := by
  have gen : ∀ (l : List DelegationTask) (a : ℕ),
      l.foldl (fun m t => max m t.priority) a = a ∨
      l.foldl (fun m t => max m t.priority) a ∈ l.map (fun t => t.priority) := by
    intro l
    induction l with
    | nil => intro a; simp
    | cons t ts ih =>
      intro a
      rcases ih (max a t.priority) with h' | h'
      · rcases Nat.le_total t.priority a with hle | hle
        · left
          rw [List.foldl_cons, h']
          omega
        · right
          rw [List.foldl_cons, h']
          simp [max_eq_right hle]
      · right
        rw [List.foldl_cons]
        simp only [List.map_cons, List.mem_cons]
        exact Or.inr h'
  rcases gen tasks 0 with h' | h'
  · -- the fold stayed at 0: every priority is 0, so 0 occurs in the list
    cases tasks with
    | nil => exact absurd rfl h
    | cons t ts =>
      have hle := le_maxPrio (t :: ts) t (List.mem_cons_self _ _)
      have hm : maxPrio (t :: ts) = 0 := h'
      rw [hm] at hle ⊢
      simp only [List.map_cons, List.mem_cons]
      left
      omega
  · exact h'

theorem assocFind_getLast (q : DelegQueue) (hq : q ≠ [])
    (hs : (q.map Prod.fst).Sorted (· < ·)) :
    assocFind (q.getLast hq).1 q = some (q.getLast hq).2 := by
  induction q with
  | nil => exact absurd rfl hq
  | cons e rest ih =>
    match rest with
    | [] =>
      simp [assocFind, List.getLast]
    | e' :: rest' =>
      have hne : e' :: rest' ≠ [] := by simp
      have hlast : ((e :: e' :: rest').getLast hq) =
          ((e' :: rest').getLast hne) := List.getLast_cons hne
      have hs' : ((e' :: rest').map Prod.fst).Sorted (· < ·) :=
        (List.pairwise_cons.mp hs).2
      have hk0 : ∀ k ∈ (e' :: rest').map Prod.fst, e.1 < k :=
        (List.pairwise_cons.mp hs).1
      have hmem : ((e' :: rest').getLast hne).1 ∈
          (e' :: rest').map Prod.fst :=
        List.mem_map_of_mem Prod.fst (List.getLast_mem hne)
      have hne2 : e.1 ≠ ((e' :: rest').getLast hne).1 := by
        have := hk0 _ hmem
        omega
      rw [hlast]
      obtain ⟨a, b⟩ := e
      simp only [assocFind, if_neg hne2]
      exact ih hne hs'

theorem le_getLast_key (q : DelegQueue) (hq : q ≠ [])
    (hs : (q.map Prod.fst).Sorted (· < ·)) :
    ∀ k ∈ q.map Prod.fst, k ≤ (q.getLast hq).1 := by
  induction q with
  | nil => exact absurd rfl hq
  | cons e rest ih =>
    match rest with
    | [] =>
      intro k hk
      simp at hk
      simp [List.getLast, hk]
    | e' :: rest' =>
      have hne : e' :: rest' ≠ [] := by simp
      have hlast : ((e :: e' :: rest').getLast hq) =
          ((e' :: rest').getLast hne) := List.getLast_cons hne
      have hs' : ((e' :: rest').map Prod.fst).Sorted (· < ·) :=
        (List.pairwise_cons.mp hs).2
      have hk0 : ∀ k ∈ (e' :: rest').map Prod.fst, e.1 < k :=
        (List.pairwise_cons.mp hs).1
      intro k hk
      rw [hlast]
      rcases List.mem_cons.mp hk with hk' | hk'
      · have hmem : ((e' :: rest').getLast hne).1 ∈
            (e' :: rest').map Prod.fst :=
          List.mem_map_of_mem Prod.fst (List.getLast_mem hne)
        have := hk0 _ hmem
        omega
      · exact ih hne hs' k hk'

theorem lastTier_cons_cons (e e' : ℕ × List DelegationTask)
    (rest : DelegQueue) :
    lastTier (e :: e' :: rest) = lastTier (e' :: rest) := by
  unfold lastTier
  rw [List.getLast?_cons_cons]

theorem lastTier_delegBuild (tasks : List DelegationTask) :
    lastTier (delegBuild tasks) =
      tasks.filter (fun t => t.priority == maxPrio tasks) := by
  rcases List.eq_nil_or_concat tasks with rfl | ⟨l, t, rfl⟩
  · rfl
  · simp only [List.concat_eq_append]
    have hne : l ++ [t] ≠ [] := by simp
    obtain ⟨hsorted, htier, hmem⟩ := delegBuild_spec (l ++ [t])
    have hqne : delegBuild (l ++ [t]) ≠ [] := by
      intro hq
      have h1 : t.priority ∈ (l ++ [t]).map (fun t => t.priority) := by simp
      have h2 := (hmem t.priority).mpr h1
      rw [hq] at h2
      simp at h2
    have hlastkey : ((delegBuild (l ++ [t])).getLast hqne).1 =
        maxPrio (l ++ [t]) := by
      apply le_antisymm
      · have hmem1 : ((delegBuild (l ++ [t])).getLast hqne).1 ∈
            (delegBuild (l ++ [t])).map Prod.fst :=
          List.mem_map_of_mem Prod.fst (List.getLast_mem hqne)
        have hmem2 := (hmem _).mp hmem1
        rcases List.mem_map.mp hmem2 with ⟨t', ht', hpt⟩
        rw [← hpt]
        exact le_maxPrio _ t' ht'
      · have hmem1 := (hmem (maxPrio (l ++ [t]))).mpr (maxPrio_mem _ hne)
        exact le_getLast_key _ hqne hsorted _ hmem1
    have hfind := assocFind_getLast (delegBuild (l ++ [t])) hqne hsorted
    have hlt : lastTier (delegBuild (l ++ [t])) =
        ((delegBuild (l ++ [t])).getLast hqne).2 := by
      unfold lastTier
      rw [List.getLast?_eq_getLast _ hqne]
      rfl
    rw [hlt]
    have : tierGet (((delegBuild (l ++ [t])).getLast hqne).1)
        (delegBuild (l ++ [t])) =
        ((delegBuild (l ++ [t])).getLast hqne).2 := by
      unfold tierGet
      rw [hfind]
      rfl
    rw [← this, hlastkey, htier]

theorem delegDequeue_lastTier_nil :
    ∀ q : DelegQueue, lastTier q = [] → delegDequeue q = (none, q) := by
  intro q
  induction q with
  | nil => intro _; rfl
  | cons e rest ih =>
    match rest with
    | [] =>
      intro h
      obtain ⟨k, tier⟩ := e
      have : tier = [] := by simpa [lastTier] using h
      subst this
      rfl
    | e' :: rest' =>
      intro h
      have h' : lastTier (e' :: rest') = [] := by
        rw [← lastTier_cons_cons e e' rest']
        exact h
      simp only [delegDequeue, ih h']

theorem delegDequeue_lastTier_cons :
    ∀ (q : DelegQueue) (t : DelegationTask) (ts : List DelegationTask),
      lastTier q = t :: ts → delegDequeue q = (some t, setLastTier q ts) := by
  intro q
  induction q with
  | nil => intro t ts h; simp [lastTier] at h
  | cons e rest ih =>
    match rest with
    | [] =>
      intro t ts h
      obtain ⟨k, tier⟩ := e
      have : tier = t :: ts := by simpa [lastTier] using h
      subst this
      rfl
    | e' :: rest' =>
      intro t ts h
      have h' : lastTier (e' :: rest') = t :: ts := by
        rw [← lastTier_cons_cons e e' rest']
        exact h
      simp only [delegDequeue, setLastTier, ih t ts h']

theorem setLastTier_ne_nil (q : DelegQueue) (d : List DelegationTask)
    (hq : q ≠ []) : setLastTier q d ≠ [] := by
  match q with
  | [] => exact absurd rfl hq
  | [(k, tier)] => simp [setLastTier]
  | e :: e' :: rest => simp [setLastTier]

theorem lastTier_setLastTier :
    ∀ (q : DelegQueue) (d : List DelegationTask), q ≠ [] →
      lastTier (setLastTier q d) = d := by
  intro q
  induction q with
  | nil => intro d h; exact absurd rfl h
  | cons e rest ih =>
    match rest with
    | [] =>
      intro d _
      obtain ⟨k, tier⟩ := e
      simp [setLastTier, lastTier]
    | e' :: rest' =>
      intro d _
      rw [show setLastTier (e :: e' :: rest') d =
        e :: setLastTier (e' :: rest') d from rfl]
      have hne2 : setLastTier (e' :: rest') d ≠ [] :=
        setLastTier_ne_nil (e' :: rest') d (by simp)
      match hs : setLastTier (e' :: rest') d with
      | [] => exact absurd hs hne2
      | f :: fs =>
        rw [lastTier_cons_cons e f fs, ← hs]
        exact ih d (by simp)

theorem delegPopSeq_eq :
    ∀ (n : ℕ) (q : DelegQueue), delegPopSeq n q = (lastTier q).take n := by
  intro n
  induction n with
  | zero => intro q; simp [delegPopSeq]
  | succ m ih =>
    intro q
    rcases hq : lastTier q with _ | ⟨t, ts⟩
    · simp only [delegPopSeq, delegDequeue_lastTier_nil q hq]
      simp
    · have hqne : q ≠ [] := by
        intro hnil
        rw [hnil] at hq
        simp [lastTier] at hq
      simp only [delegPopSeq, delegDequeue_lastTier_cons q t ts hq]
      rw [ih (setLastTier q ts), lastTier_setLastTier q ts hqne]
      simp

/-! ## `bust_cache` state decomposition -/

theorem bustCache_state (st : CacheManagerState) (target : String)
    (s : CacheBustSeverity) (now : ℕ) :
    (bustCache st target s now).1 =
      { cacheEvicons :=
          st.cacheEvicons.filter fun e => !(e.2.modelBinding == target)
        diramDimensions :=
          assocModify target
            (fun d =>
              { d with
                cacheState := CacheState.Stale
                hotPathScore := d.hotPathScore * (1 / 2) })
            st.diramDimensions
        heapEntries :=
          heapPush st.heapEntries ⟨target, priorityScore s, now⟩
        modelBindings := st.modelBindings
        redisClient := st.redisClient
        bustLog := st.bustLog ++ [(target, s)] } := by
  unfold bustCache queueRebuild
  cases st.redisClient <;> rfl

theorem bustCache_snd (st : CacheManagerState) (target : String)
    (s : CacheBustSeverity) (now : ℕ) :
    (bustCache st target s now).2 = st.redisClient.getD true := by
  unfold bustCache queueRebuild
  cases st.redisClient <;> rfl

/-! # Claim theorems -/

/-- C1: for every target `T` with a bound cache vector and every severity
`s`, `bust_cache(T, s)` sets `T`'s vector state to `Stale`, halves its
`hot_path_score`, removes every cache entry whose binding is `T` (and keeps
every other entry), and enqueues a rebuild request for `T` with the
severity-derived priority score. -/
theorem C1_bustCache_busts_bound_target (st : CacheManagerState)
    (target : String) (s : CacheBustSeverity) (now : ℕ) (d : DiramDimension)
    (hd : assocFind target st.diramDimensions = some d) :
    assocFind target ((bustCache st target s now).1.diramDimensions) =
      some { d with
              cacheState := CacheState.Stale
              hotPathScore := d.hotPathScore * (1 / 2) } ∧
    (∀ e ∈ (bustCache st target s now).1.cacheEvicons,
      e.2.modelBinding ≠ target) ∧
    (∀ e ∈ st.cacheEvicons, e.2.modelBinding ≠ target →
      e ∈ (bustCache st target s now).1.cacheEvicons) ∧
    List.Perm ((bustCache st target s now).1.heapEntries)
      (⟨target, priorityScore s, now⟩ :: st.heapEntries) := by
  rw [bustCache_state]
  refine ⟨?_, ?_, ?_, ?_⟩
  · rw [assocFind_assocModify_self, hd]
    rfl
  · intro e he
    have := (List.mem_filter.mp he).2
    simpa using this
  · intro e he hne
    exact List.mem_filter.mpr ⟨he, by simpa using hne⟩
  · exact heapPush_perm st.heapEntries ⟨target, priorityScore s, now⟩

/-- Witness for C1 at a concrete bound target. -/
theorem C1_bustCache_busts_bound_target_witness :
    assocFind "node-target"
      ((bustCache
        (CacheManagerState.mk
          [("c1", CacheEvicon.mk "c1" "node-target" EvictionStrategy.LRU 0 1 1 1)]
          [("node-target", DiramDimension.mk "diram_node-target" 4 0 [] CacheState.Hot)]
          [] [] none [])
        "node-target" CacheBustSeverity.Medium 7).1.diramDimensions) =
      some (DiramDimension.mk "diram_node-target" ((4 : ℚ) * (1 / 2)) 0 []
        CacheState.Stale) :=
  (C1_bustCache_busts_bound_target
    (CacheManagerState.mk
      [("c1", CacheEvicon.mk "c1" "node-target" EvictionStrategy.LRU 0 1 1 1)]
      [("node-target", DiramDimension.mk "diram_node-target" 4 0 [] CacheState.Hot)]
      [] [] none [])
    "node-target" CacheBustSeverity.Medium 7
    (DiramDimension.mk "diram_node-target" 4 0 [] CacheState.Hot)
    (by decide)).1

/-- C10 (frame effect): `bust_cache(T, s)` leaves every other target's
vector and binding unchanged and removes no cache entry bound to a target
other than `T`. -/
theorem C10_bustCache_frame (st : CacheManagerState) (target U : String)
    (s : CacheBustSeverity) (now : ℕ) (hne : U ≠ target) :
    assocFind U ((bustCache st target s now).1.diramDimensions) =
      assocFind U st.diramDimensions ∧
    (bustCache st target s now).1.modelBindings = st.modelBindings ∧
    (∀ e ∈ st.cacheEvicons, e.2.modelBinding ≠ target →
      e ∈ (bustCache st target s now).1.cacheEvicons) ∧
    (∀ e ∈ (bustCache st target s now).1.cacheEvicons,
      e ∈ st.cacheEvicons) := by
  rw [bustCache_state]
  refine ⟨?_, rfl, ?_, ?_⟩
  · exact assocFind_assocModify_ne target U _ hne st.diramDimensions
  · intro e he hb
    exact List.mem_filter.mpr ⟨he, by simpa using hb⟩
  · intro e he
    exact (List.mem_filter.mp he).1

/-- Witness for C10 at a concrete pair of distinct targets. -/
theorem C10_bustCache_frame_witness :
    assocFind "other"
      ((bustCache
        (CacheManagerState.mk []
          [("other", DiramDimension.mk "diram_other" 3 0 [] CacheState.Hot)]
          [] [] none [])
        "t" CacheBustSeverity.High 0).1.diramDimensions) =
      some (DiramDimension.mk "diram_other" 3 0 [] CacheState.Hot) := by
  have h := (C10_bustCache_frame
    (CacheManagerState.mk []
      [("other", DiramDimension.mk "diram_other" 3 0 [] CacheState.Hot)]
      [] [] none [])
    "t" "other" CacheBustSeverity.High 0 (by decide)).1
  rw [h]
  decide

/-- C7 counterexample: busting a target with no binding and no vector is
*not* a no-op — the rebuild queue changes (a rebuild request for the unknown
target is enqueued). -/
theorem C7_counterexample :
    assocFind "x"
      (CacheManagerState.mk [] [] [] [] none []).diramDimensions = none ∧
    assocFind "x"
      (CacheManagerState.mk [] [] [] [] none []).modelBindings = none ∧
    (bustCache (CacheManagerState.mk [] [] [] [] none []) "x"
        CacheBustSeverity.Low 0).1.heapEntries ≠
      (CacheManagerState.mk [] [] [] [] none []).heapEntries := by
  decide

/-- C7 (amended): busting a target with no binding, no vector and no bound
cache entries succeeds (when the optional Redis notification does not fail)
and leaves vectors, entries and bindings unchanged, but it is not a no-op on
the rebuild queue: a rebuild request for the unknown target is still
enqueued. -/
theorem C7_bustCache_unknown_target (st : CacheManagerState)
    (target : String) (s : CacheBustSeverity) (now : ℕ)
    (hv : assocFind target st.diramDimensions = none)
    (he : ∀ e ∈ st.cacheEvicons, e.2.modelBinding ≠ target)
    (hr : st.redisClient ≠ some false) :
    (bustCache st target s now).1.diramDimensions = st.diramDimensions ∧
    (bustCache st target s now).1.cacheEvicons = st.cacheEvicons ∧
    (bustCache st target s now).1.modelBindings = st.modelBindings ∧
    (bustCache st target s now).2 = true ∧
    List.Perm ((bustCache st target s now).1.heapEntries)
      (⟨target, priorityScore s, now⟩ :: st.heapEntries) := by
  refine ⟨?_, ?_, ?_, ?_, ?_⟩
  · rw [bustCache_state]
    exact assocModify_of_find_none target _ st.diramDimensions hv
  · rw [bustCache_state]
    exact List.filter_eq_self.mpr fun e hme => by simpa using he e hme
  · rw [bustCache_state]
  · rw [bustCache_snd]
    match hc : st.redisClient with
    | none => rfl
    | some true => rfl
    | some false => exact absurd hc hr
  · rw [bustCache_state]
    exact heapPush_perm st.heapEntries ⟨target, priorityScore s, now⟩

/-- Witness for C7 at a concrete unknown target. -/
theorem C7_bustCache_unknown_target_witness :
    (bustCache (CacheManagerState.mk [] [] [] [] none []) "ghost"
        CacheBustSeverity.Critical 3).2 = true := by
  exact (C7_bustCache_unknown_target
    (CacheManagerState.mk [] [] [] [] none []) "ghost"
    CacheBustSeverity.Critical 3 (by decide)
    (by intro e he; simp at he) (by decide)).2.2.2.1

/-- C2: `ModelAware` eviction returns the keys of the (at most) three
lowest-scoring candidates; candidates all have `Cold` or `Stale` vectors (so
no `Hot`/`Warm` entry is ever selected); every evicted candidate scores no
higher than every retained candidate; exactly the evicted keys are removed;
and the eviction score is exactly the specified formula. -/
theorem C2_cacheEvict_modelAware (st : CacheManagerState)
    (w : ModelWeights) :
    (cacheEvict st (EvictionStrategy.ModelAware w)).2 =
      (modelAwareEvicted st w).map Prod.fst ∧
    (cacheEvict st (EvictionStrategy.ModelAware w)).2.length =
      min 3 (modelAwareCandidates st).length ∧
    (∀ k ∈ (cacheEvict st (EvictionStrategy.ModelAware w)).2,
      ∃ d, assocFind k st.diramDimensions = some d ∧
        (d.cacheState = CacheState.Cold ∨ d.cacheState = CacheState.Stale)) ∧
    (∀ a ∈ modelAwareEvicted st w,
      ∀ b ∈ ((modelAwareCandidates st).mergeSort (eviconLe w)).drop 3,
        calculateEvictionScore a.2 w ≤ calculateEvictionScore b.2 w) ∧
    (cacheEvict st (EvictionStrategy.ModelAware w)).1.cacheEvicons =
      st.cacheEvicons.filter
        (fun e => !(((modelAwareEvicted st w).map Prod.fst).contains e.1)) ∧
    (∀ (e : CacheEvicon) (wts : ModelWeights),
      calculateEvictionScore e wts = specEvictionScore e wts) := by
  refine ⟨rfl, ?_, ?_, ?_, rfl, ?_⟩
  · simp [cacheEvict, modelAwareEvicted, List.length_take,
      List.length_mergeSort]
  · intro k hk
    rcases List.mem_map.mp hk with ⟨a, ha, rfl⟩
    have ha' : a ∈ (modelAwareCandidates st).mergeSort (eviconLe w) :=
      List.mem_of_mem_take ha
    have ha2 : a ∈ modelAwareCandidates st :=
      (List.Perm.mem_iff (List.mergeSort_perm _ _)).mp ha'
    have hp := (List.mem_filter.mp ha2).2
    cases hfind : assocFind a.1 st.diramDimensions with
    | none => rw [hfind] at hp; simp at hp
    | some d =>
      rw [hfind] at hp
      refine ⟨d, rfl, ?_⟩
      simpa using hp
  · have htrans : ∀ a b c, eviconLe w a b = true → eviconLe w b c = true →
        eviconLe w a c = true := by
      intro a b c hab hbc
      simp only [eviconLe, decide_eq_true_eq] at hab hbc ⊢
      exact le_trans hab hbc
    have htotal : ∀ a b, (eviconLe w a b || eviconLe w b a) = true := by
      intro a b
      simp only [eviconLe, Bool.or_eq_true, decide_eq_true_eq]
      exact le_total _ _
    have hsorted := List.sorted_mergeSort htrans htotal
      (modelAwareCandidates st)
    intro a ha b hb
    have := List.Sorted.rel_of_mem_take_of_mem_drop hsorted ha hb
    simpa [eviconLe] using this
  · intro e wts
    unfold calculateEvictionScore specEvictionScore
    ring

/-- Witness for C2 at a concrete single-candidate state. -/
theorem C2_cacheEvict_modelAware_witness :
    ∃ d, assocFind "e1"
        (CacheManagerState.mk
          [("e1", CacheEvicon.mk "e1" "t" EvictionStrategy.LRU 0 2 3 1)]
          [("e1", DiramDimension.mk "v" 0 0 [] CacheState.Stale)]
          [] [] none []).diramDimensions = some d ∧
      (d.cacheState = CacheState.Cold ∨ d.cacheState = CacheState.Stale) := by
  refine (C2_cacheEvict_modelAware
    (CacheManagerState.mk
      [("e1", CacheEvicon.mk "e1" "t" EvictionStrategy.LRU 0 2 3 1)]
      [("e1", DiramDimension.mk "v" 0 0 [] CacheState.Stale)]
      [] [] none [])
    (ModelWeights.mk 1 1 1 true)).2.2.1 "e1" ?_
  simp [cacheEvict, modelAwareEvicted, modelAwareCandidates, assocFind]

/-- C3 counterexample: four equal-score (`Medium`-mapped, score 5) entries
pushed in order a, b, c, d pop from the rebuild heap as a, c, b, d — among
equal scores the insertion (FIFO) order is *not* preserved. -/
theorem C3_counterexample :
    (∀ e ∈ ([⟨"a", 5, 0⟩, ⟨"b", 5, 1⟩, ⟨"c", 5, 2⟩, ⟨"d", 5, 3⟩] :
        List PriorityEntry),
      e.priorityScore = priorityScore CacheBustSeverity.Medium) ∧
    (popSeq (([⟨"a", 5, 0⟩, ⟨"b", 5, 1⟩, ⟨"c", 5, 2⟩, ⟨"d", 5, 3⟩] :
        List PriorityEntry).foldl heapPush [])).map PriorityEntry.cacheId =
      ["a", "c", "b", "d"] ∧
    (["a", "c", "b", "d"] : List String) ≠ ["a", "b", "c", "d"] := by
  refine ⟨by decide, by decide, by decide⟩

/-- C3 (amended): the severity-to-score mapping is Low=1, Medium=5, High=10,
Critical=50; for every sequence of rebuild enqueues, successive dequeues from
the rebuild heap return non-increasing priority scores (but equal-score
entries do *not* surface in insertion order — see the counterexample, a
consequence of `BinaryHeap` being unstable and `PriorityEntry`'s ordering
ignoring timestamps); and for every sequence of delegation enqueues, the
delegation engine dequeues exactly the maximal-priority tier, in insertion
(FIFO) order. -/
theorem C3_priority_queue_order (pushes : List PriorityEntry)
    (tasks : List DelegationTask) (n : ℕ) :
    (priorityScore CacheBustSeverity.Low = 1 ∧
      priorityScore CacheBustSeverity.Medium = 5 ∧
      priorityScore CacheBustSeverity.High = 10 ∧
      priorityScore CacheBustSeverity.Critical = 50) ∧
    List.Pairwise
      (fun a b : PriorityEntry => b.priorityScore ≤ a.priorityScore)
      (popSeq (pushes.foldl heapPush [])) ∧
    delegPopSeq n (delegBuild tasks) =
      (tasks.filter (fun t => t.priority == maxPrio tasks)).take n := by
  refine ⟨⟨rfl, rfl, rfl, rfl⟩, ?_, ?_⟩
  · exact popSeqGo_sorted _ _ (heapProp_foldl pushes [] heapProp_nil)
  · rw [delegPopSeq_eq, lastTier_delegBuild]

/-- C4 counterexample: an Ok/Warning-severity error for component `"c"`
with no compliance flag selects the *registered* `HardRecovery` strategy,
not Soft. -/
theorem C4_counterexample :
    determineRecoveryStrategy newSelfHealing
      (BustCallError.mk SeverityLevel.Warning "x" "c" none) =
      RecoveryStrategy.HardRecovery true false ∧
    RecoveryStrategy.isSoft (determineRecoveryStrategy newSelfHealing
      (BustCallError.mk SeverityLevel.Warning "x" "c" none)) = false ∧
    isConstitutionalViolation
      (BustCallError.mk SeverityLevel.Warning "x" "c" none) = false := by
  refine ⟨by decide, by decide, by decide⟩

/-- C4 (amended): recovery strategy selection is a pure function of
(severity, component, compliance flag).  The compliance flag always routes
to `ConstitutionalEmergency` (lockdown), taking precedence over any
severity; severity Ok/Warning without the flag takes the component's
registered strategy, defaulting to `SoftRecovery {3, 1000}` (components
`"c"` and `"gosilang"` are registered `HardRecovery`); severity Panic
without the flag takes `EmergencyRecovery {system_restart: true}`, not a
Manual/Lockdown outcome. -/
theorem C4_determineRecoveryStrategy (st : SelfHealingState)
    (error : BustCallError) :
    (isConstitutionalViolation error = true →
      determineRecoveryStrategy st error =
        RecoveryStrategy.ConstitutionalEmergency true true) ∧
    (isConstitutionalViolation error = false →
      (error.severity = SeverityLevel.Ok ∨
        error.severity = SeverityLevel.Warning) →
      determineRecoveryStrategy st error =
        (assocFind error.component st.recoveryStrategies).getD
          (RecoveryStrategy.SoftRecovery 3 1000)) ∧
    (isConstitutionalViolation error = false →
      error.severity = SeverityLevel.Panic →
      determineRecoveryStrategy st error =
        RecoveryStrategy.EmergencyRecovery true true) := by
  refine ⟨?_, ?_, ?_⟩
  · intro h
    simp [determineRecoveryStrategy, h]
  · intro h hs
    rcases hs with hs | hs <;> simp [determineRecoveryStrategy, h, hs]
  · intro h hs
    simp [determineRecoveryStrategy, h, hs]

/-- Witness for C4: a Warning-severity error for component `"node"` selects
the registered Soft strategy. -/
theorem C4_determineRecoveryStrategy_witness :
    determineRecoveryStrategy newSelfHealing
      (BustCallError.mk SeverityLevel.Warning "all good" "node" none) =
      RecoveryStrategy.SoftRecovery 3 1000 := by
  have h := (C4_determineRecoveryStrategy newSelfHealing
    (BustCallError.mk SeverityLevel.Warning "all good" "node" none)).2.1
    (by decide) (Or.inr rfl)
  rw [h]
  decide

/-- C6 counterexample: the PID transition `None → Some 4321` for the bound
target `"python-target"` issues *two* `Medium` busts (one from
`monitor_pid_changes`, one from the `monitor_pid` polling step), not exactly
one. -/
theorem C6_counterexample :
    (monitorPid "python-target"
      (CacheManagerState.mk []
        [("python-target", DiramDimension.mk "v" 0 0 [] CacheState.Cold)]
        []
        [("python-target", ModelBinding.mk "python3" none "./venv" 0 [])]
        none [])
      (RuntimeWatcher.mk "python-target"
        (TargetConfig.mk "./venv" "python3" true true none none none none)
        none none)
      (some 4321) 0).1.bustLog =
      [("python-target", CacheBustSeverity.Medium),
        ("python-target", CacheBustSeverity.Medium)] ∧
    ([("python-target", CacheBustSeverity.Medium),
        ("python-target", CacheBustSeverity.Medium)] :
      List (String × CacheBustSeverity)).length ≠ 1 := by
  refine ⟨by decide, by decide⟩

/-- C6 (amended): on a PID change for a bound target (with the Redis channel
absent, so no bust fails), the binding's pid is updated to the new value and
the watcher records it, but *two* busts are issued: `monitor_pid_changes`
always busts at `Medium`, and `monitor_pid` then busts again — at `High`
when the new pid is absent, at `Medium` when it is present.  In particular a
`None → Some pid` transition produces exactly two `Medium` busts. -/
theorem C6_monitorPid_two_busts (target : String) (st : CacheManagerState)
    (watcher : RuntimeWatcher) (newPid : Option ℕ) (now : ℕ)
    (hchange : watcher.currentPid ≠ newPid)
    (hredis : st.redisClient = none) :
    (monitorPid target st watcher newPid now).1.bustLog =
      st.bustLog ++ [(target, CacheBustSeverity.Medium)] ++
        (if newPid = none then [(target, CacheBustSeverity.High)]
         else [(target, CacheBustSeverity.Medium)]) ∧
    assocFind target
        ((monitorPid target st watcher newPid now).1.modelBindings) =
      (assocFind target st.modelBindings).map
        (fun b => { b with pid := newPid }) ∧
    (monitorPid target st watcher newPid now).2.1.currentPid = newPid ∧
    (monitorPid target st watcher newPid now).2.2 = true := by
  have hmpc : monitorPidChanges st target watcher.currentPid newPid now =
      bustCache
        { st with
          modelBindings := assocModify target
            (fun b => { b with pid := newPid }) st.modelBindings }
        target CacheBustSeverity.Medium now := by
    unfold monitorPidChanges
    rw [if_pos hchange]
  have hsnd1 : (monitorPidChanges st target watcher.currentPid newPid now).2 =
      true := by
    rw [hmpc, bustCache_snd]
    simp [hredis]
  unfold monitorPid
  rw [if_pos hchange]
  simp only [hsnd1]
  rcases newPid with _ | p <;>
    simp [hmpc, bustCache_state, bustCache_snd, assocFind_assocModify_self,
      hredis]

/-- Witness for C6 at a concrete `Some → Some` restart transition. -/
theorem C6_monitorPid_two_busts_witness :
    (monitorPid "t"
      (CacheManagerState.mk [] [] [] [] none [])
      (RuntimeWatcher.mk "t"
        (TargetConfig.mk "p" "r" true true none none none none)
        (some 1) none)
      (some 2) 9).1.bustLog =
      [("t", CacheBustSeverity.Medium), ("t", CacheBustSeverity.Medium)] := by
  have h := (C6_monitorPid_two_busts "t"
    (CacheManagerState.mk [] [] [] [] none [])
    (RuntimeWatcher.mk "t"
      (TargetConfig.mk "p" "r" true true none none none none)
      (some 1) none)
    (some 2) 9 (by decide) rfl).1
  rw [h]
  decide

/-- C8 counterexample: a heartbeat-monitor tick on a node with a *fresh*
heartbeat leaves its fault level exactly as it was (`Critical`, score 3) —
no ×0.9 decay toward zero happens on fresh ticks. -/
theorem C8_counterexample :
    (heartbeatTick 5
      (ProcessNode.mk "n" none none "" "" FaultLevel.Critical 0 1 []
        none)).1.faultLevel = FaultLevel.Critical ∧
    (heartbeatTick 5
      (ProcessNode.mk "n" none none "" "" FaultLevel.Critical 0 1 []
        none)).1.faultLevel =
      (ProcessNode.mk "n" none none "" "" FaultLevel.Critical 0 1 []
        none).faultLevel ∧
    faultLevelScore ((heartbeatTick 5
      (ProcessNode.mk "n" none none "" "" FaultLevel.Critical 0 1 []
        none)).1.faultLevel) = 3 ∧
    ((9 : ℚ) / 10) * 3 ≠ 3 := by
  refine ⟨by decide, by decide, by decide, by norm_num⟩

/-- C8 (amended): in the consensus handler, a heartbeat refreshes the
sender's timestamp and decays its fault score by ×0.9 floored at zero (so,
absent `FaultReport` messages, no node's fault score ever increases there);
in the daemon's heartbeat monitor, a tick raises `fault_level` to `Critical`
exactly when the heartbeat is older than the 10-second staleness window and
otherwise leaves `fault_level` unchanged — it performs no decay. -/
theorem C8_fault_decay (registry : List (String × ConsensusNode))
    (fromNode : String) (node : ConsensusNode) (ts : ℕ) (pow : Option ℕ)
    (hfind : assocFind fromNode registry = some node)
    (hnn : 0 ≤ node.faultScore) :
    (∃ node', assocFind fromNode
        (handleConsensusMessage
          (ConsensusMessage.mk fromNode MessageType.Heartbeat ts pow)
          registry) = some node' ∧
      node'.faultScore = max (node.faultScore * (9 / 10)) 0 ∧
      node'.faultScore ≤ node.faultScore ∧ node'.lastHeartbeat = ts) ∧
    (∀ msg : ConsensusMessage,
      (∀ f sv, msg.messageType ≠ MessageType.FaultReport f sv) →
      ∀ n nd, assocFind n registry = some nd → 0 ≤ nd.faultScore →
        ∃ nd', assocFind n (handleConsensusMessage msg registry) =
            some nd' ∧ nd'.faultScore ≤ nd.faultScore) ∧
    (∀ (currentTime : ℕ) (pn : ProcessNode),
      (currentTime - pn.lastHeartbeat > 10 →
        (heartbeatTick currentTime pn).1.faultLevel = FaultLevel.Critical) ∧
      (currentTime - pn.lastHeartbeat ≤ 10 →
        (heartbeatTick currentTime pn).1.faultLevel = pn.faultLevel)) := by
  have hdecay : ∀ nd : ConsensusNode, 0 ≤ nd.faultScore →
      max (nd.faultScore * (9 / 10)) 0 ≤ nd.faultScore := by
    intro nd h
    apply max_le
    · exact mul_le_of_le_one_right h (by norm_num)
    · exact h
  refine ⟨?_, ?_, ?_⟩
  · unfold handleConsensusMessage
    simp only []
    rw [assocFind_assocModify_self, hfind]
    exact ⟨_, rfl, rfl, hdecay node hnn, rfl⟩
  · intro msg hft n nd hfind' hnn'
    unfold handleConsensusMessage
    cases hmsg : msg.messageType with
    | Heartbeat =>
      by_cases hn : n = msg.fromNode
      · subst hn
        rw [assocFind_assocModify_self, hfind']
        exact ⟨_, rfl, hdecay nd hnn'⟩
      · rw [assocFind_assocModify_ne _ _ _ hn, hfind']
        exact ⟨nd, rfl, le_refl _⟩
    | FaultReport f sv => exact absurd hmsg (hft f sv)
    | DelegationRequest tgt pr => exact ⟨nd, hfind', le_refl _⟩
    | ConsensusVote pid vote => exact ⟨nd, hfind', le_refl _⟩
  · intro currentTime pn
    constructor
    · intro h
      simp [heartbeatTick, if_pos h]
    · intro h
      simp [heartbeatTick, if_neg (by omega : ¬currentTime - pn.lastHeartbeat > 10)]

/-- Witness for C8 at a concrete registry and node. -/
theorem C8_fault_decay_witness :
    (heartbeatTick 20
      (ProcessNode.mk "p" none none "" "" FaultLevel.Warning 0 1 []
        none)).1.faultLevel = FaultLevel.Critical := by
  have h := ((C8_fault_decay
    [("n1", ConsensusNode.mk "n1" 1 0 0 1)] "n1"
    (ConsensusNode.mk "n1" 1 0 0 1) 5 none (by decide) (by decide)).2.2
    20 (ProcessNode.mk "p" none none "" "" FaultLevel.Warning 0 1 [] none)).1
    (by decide)
  exact h

/-- C9 counterexample: an error whose text carries a compliance-rule id
takes the constitutional-violation path of `attempt_recovery`, which returns
without appending any `RecoveryAttempt` — the recovery log stays empty. -/
theorem C9_counterexample :
    (validateConstitutionalCompliance newSelfHealing
      (BustCallError.mk SeverityLevel.Ok "AI_TRAINING_PROTECTION breach" "x"
        none) 0).isSome = true ∧
    (attemptRecovery newSelfHealing
      (BustCallError.mk SeverityLevel.Ok "AI_TRAINING_PROTECTION breach" "x"
        none) 0 0).1.recoveryHistory = [] ∧
    ((attemptRecovery newSelfHealing
      (BustCallError.mk SeverityLevel.Ok "AI_TRAINING_PROTECTION breach" "x"
        none) 0 0).1.recoveryHistory).length ≠ 1 := by
  refine ⟨by decide, by decide, by decide⟩

/-- C9 (amended): an `attempt_recovery` invocation that passes
constitutional-compliance validation appends exactly one `RecoveryAttempt`
(trimming the oldest 100 entries once the log exceeds 1000); an invocation
that trips a compliance rule returns early, appending the violation to the
violation history and *nothing* to the recovery log; and the recovery log
never grows past 1000 entries. -/
theorem C9_attemptRecovery_log (st : SelfHealingState)
    (error : BustCallError) (now rt : ℕ) :
    (validateConstitutionalCompliance st error now = none →
      ∃ a : RecoveryAttempt, a.timestamp = now ∧
        a.component = error.component ∧
        a.strategy = determineRecoveryStrategy st error ∧
        a.constitutionalImpact = isConstitutionalViolation error ∧
        (attemptRecovery st error now rt).1.recoveryHistory =
          (if (st.recoveryHistory ++ [a]).length > 1000
           then (st.recoveryHistory ++ [a]).drop 100
           else st.recoveryHistory ++ [a])) ∧
    (∀ v, validateConstitutionalCompliance st error now = some v →
      (attemptRecovery st error now rt).1.recoveryHistory =
        st.recoveryHistory ∧
      (attemptRecovery st error now rt).1.violationHistory =
        st.violationHistory ++ [v]) ∧
    (st.recoveryHistory.length ≤ 1000 →
      (attemptRecovery st error now rt).1.recoveryHistory.length ≤ 1000) := by
  have hexec : ∀ strat : RecoveryStrategy,
      (match strat with
        | .SoftRecovery retryCount backoffMs =>
          executeSoftRecovery st error retryCount backoffMs
        | .HardRecovery forceRebuild isolateComponent =>
          executeHardRecovery st error forceRebuild isolateComponent
        | .EmergencyRecovery systemRestart escalateToSupervisor =>
          executeEmergencyRecovery st error systemRestart
            escalateToSupervisor
        | .ConstitutionalEmergency triggerLockdown notifyBoard =>
          executeConstitutionalEmergency st error triggerLockdown
            notifyBoard).1.recoveryHistory = st.recoveryHistory := by
    intro strat
    cases strat with
    | SoftRecovery rc bo => rfl
    | HardRecovery fr iso => cases fr <;> cases iso <;> rfl
    | EmergencyRecovery sr esc => cases sr <;> cases esc <;> rfl
    | ConstitutionalEmergency tl nb => cases tl <;> cases nb <;> rfl
  refine ⟨?_, ?_, ?_⟩
  · intro hok
    simp only [attemptRecovery, hok]
    refine ⟨⟨now, error.component, determineRecoveryStrategy st error,
      (match determineRecoveryStrategy st error with
        | .SoftRecovery retryCount backoffMs =>
          executeSoftRecovery st error retryCount backoffMs
        | .HardRecovery forceRebuild isolateComponent =>
          executeHardRecovery st error forceRebuild isolateComponent
        | .EmergencyRecovery systemRestart escalateToSupervisor =>
          executeEmergencyRecovery st error systemRestart
            escalateToSupervisor
        | .ConstitutionalEmergency triggerLockdown notifyBoard =>
          executeConstitutionalEmergency st error triggerLockdown
            notifyBoard).2,
      isConstitutionalViolation error⟩, ?_, ?_, ?_, ?_, ?_⟩
    · rfl
    · rfl
    · rfl
    · rfl
    · simp only [recordRecoveryAttempt, hexec]
  · intro v hv
    unfold attemptRecovery
    rw [hv]
    exact ⟨rfl, rfl⟩
  · intro hlen
    cases hv : validateConstitutionalCompliance st error now with
    | some v =>
      simp only [attemptRecovery, hv, handleConstitutionalViolation]
      exact hlen
    | none =>
      simp only [attemptRecovery, hv]
      simp only [recordRecoveryAttempt, hexec]
      split
      · rename_i hgt
        rw [List.length_drop]
        simp at hgt ⊢
        omega
      · rename_i hle
        simp at hle ⊢
        omega

/-- Witness for C9 at a concrete compliant error: exactly one attempt is
recorded. -/
theorem C9_attemptRecovery_log_witness :
    ∃ a : RecoveryAttempt, a.timestamp = 0 ∧ a.component = "node" ∧
      a.strategy = determineRecoveryStrategy newSelfHealing
        (BustCallError.mk SeverityLevel.Warning "all good" "node" none) ∧
      a.constitutionalImpact = isConstitutionalViolation
        (BustCallError.mk SeverityLevel.Warning "all good" "node" none) ∧
      (attemptRecovery newSelfHealing
        (BustCallError.mk SeverityLevel.Warning "all good" "node" none)
        0 0).1.recoveryHistory =
        (if ((newSelfHealing.recoveryHistory ++ [a]).length > 1000)
         then (newSelfHealing.recoveryHistory ++ [a]).drop 100
         else newSelfHealing.recoveryHistory ++ [a]) :=
  (C9_attemptRecovery_log newSelfHealing
    (BustCallError.mk SeverityLevel.Warning "all good" "node" none) 0 0).1
    (by decide)

end Bustcall
